/-
Verification of the ELF-to-SGXS layout engine (src/libenclave-tools/src/elf2sgxs.rs).

This file shallowly embeds the data model and the operations of the converter:
the ELF inspector (check_symbols, check_dynamic, check_relocs), the layout
planner (size_align_page_size, enclave_size, the address chain in write), the
splice engine (the chained-reader construction in write_elf_segments) and the
SGXS emitter (the sequence of writer calls in write).  Machine integers (u64,
u32, usize) are embedded as Nat; all arithmetic in the embedded code paths
stays far below 2^64 on the inputs the theorems quantify over, and bit masks
with low zero bits (`x & !0xfff`) are written as the equivalent div/mod
arithmetic on Nat.  The external SGXS writer is modelled as a pure sink: each
writer call becomes a `Record`, so a conversion produces a list of records.
Byte values are Nat (always < 256 where produced).

The five-way splice value `transmute::<&u64,&[u8;8]>` is the native byte order
of the x86-64 target, i.e. little-endian; it is embedded as `le64`.
-/
import Mathlib

set_option linter.unusedVariables false

/-- Little-endian byte encoding of a 64-bit value, as produced by
`transmute::<&u64,&[u8;8]>` on the x86-64 target. -/
def le64 (v : Nat) : List Nat :=
  [v % 256, v / 2 ^ 8 % 256, v / 2 ^ 16 % 256, v / 2 ^ 24 % 256,
   v / 2 ^ 32 % 256, v / 2 ^ 40 % 256, v / 2 ^ 48 % 256, v / 2 ^ 56 % 256]

/-- Embeds `size_align_page_size` (elf2sgxs.rs lines 59-64): round `size` up to
the next multiple of 0x1000. -/
def size_align_page_size (size : Nat) : Nat :=
  match size % 0x1000 with
  | 0 => size
  | residue => size + (0x1000 - residue)

/-- The error enumeration of elf2sgxs.rs (the `Sgxs` wrapper of downstream
writer errors is not represented: the writer is modelled as a pure sink that
cannot fail). -/
inductive Error where
  | EnclaveSizeTooBig
  | DynamicSymbolUndefined (name : String)
  | DynamicSymbolDuplicate (name : String)
  | DynamicSymbolMissing (names : List String)
  | DynamicSymbolIncorrectSize (name : String) (expected actual : Nat)
  | DynamicSymbolTableNotInDynsymSection
  | DynamicSymbolTableNotFound
  | DynEntryUnsupportedPLTGOT
  | DynEntryUnsupportedInitFunction
  | DynEntryUnsupportedFiniFunction
  | DynEntryUnsupportedImplicitReloc
  | DynEntryDuplicateDtRela
  | DynEntryDuplicateDtRelacount
  | DynEntryFoundDtRelaButNotDtRelacount
  | DynEntryFoundDtRelacountButNotDtRela
  | DynamicSectionNotInPtDynamicSegment
  | DynamicSectionNotFound
  | RelocationInvalid (sectionIdx rtype : Nat)
  | RelocationOutsideWritableSegment (offset : Nat)
  | RelocationInvalidCount (expected actual : Nat)
  | ElfClassNot64
  | NoLoadableSegments
deriving DecidableEq, Repr

deriving instance DecidableEq for Except

/-- Floor base-2 logarithm with an explicit recursion budget (structural, so
it reduces inside the kernel, unlike `Nat.log2`). -/
def log2Fuel : Nat → Nat → Nat
  | 0, _ => 0
  | fuel + 1, n => if 2 ≤ n then log2Fuel fuel (n / 2) + 1 else 0

/-- Floor base-2 logarithm of a u64 value. -/
def log2u64 (n : Nat) : Nat := log2Fuel 64 n

/-- Embeds `enclave_size` (elf2sgxs.rs lines 67-74).  The source computes the
next power of two of `last_page_address` through `(x as f64).integer_decode()`.
For `0 < x < 2^53` the `u64 -> f64` conversion is exact and the decoded pair is
`mantissa = x * 2^(52 - log2 x)` (normalised into `[2^52, 2^53)`) and
`exponent = log2 x - 52`; the source returns `1 << (exponent + 53)`, or
`1 << (exponent + 52)` when `mantissa = 2^52`.  This definition performs that
arithmetic on Nat. -/
def enclave_size (last_page_address : Nat) : Except Error Nat :=
  if last_page_address = 0 then .ok 0
  else if 0x20000000000000 ≤ last_page_address then .error .EnclaveSizeTooBig
  else
    let exponent := log2u64 last_page_address
    let mantissa := last_page_address * 2 ^ (52 - exponent)
    if mantissa = 2 ^ 52 then .ok (2 ^ exponent) else .ok (2 ^ (exponent + 1))

/-- Dynamic symbol table entry (`DynEntry64` of xmas-elf): only the fields the
converter reads are represented. -/
structure DynSym where
  name : String
  shndx : Nat
  size : Nat
  value : Nat
deriving DecidableEq, Repr

/-- The reserved section index `SHN_UNDEF`. -/
def SHN_UNDEF : Nat := 0

/-- An entry of a 64-bit RELA table (`Rela<u64>` of xmas-elf): offset,
symbol-table index and relocation type. -/
structure Rela where
  offset : Nat
  symIdx : Nat
  rtype : Nat
deriving DecidableEq, Repr

/-- Dynamic-entry tags (`xmas_elf::dynamic::Tag`).  Only the tags that
`check_dynamic` matches on are distinguished; every remaining named tag is
collapsed into `other`, and OS-specific tags keep their numeric value. -/
inductive DynTag where
  | pltRelSize
  | pltRel
  | jmpRel
  | initTag
  | initArray
  | initArraySize
  | finiTag
  | finiArray
  | finiArraySize
  | rel
  | relSize
  | relEnt
  | rela
  | osSpecific (n : Nat)
  | other (n : Nat)
deriving DecidableEq, Repr

/-- Dynamic section entry (`Dynamic<u64>` of xmas-elf).  `get_val` and
`get_ptr` both read the same 8-byte union member, embedded as `val`. -/
structure DynEntry where
  tag : DynTag
  val : Nat
deriving DecidableEq, Repr

/-- Payload of a section as classified by `SectionHeader::get_data`. -/
inductive SectionData where
  | dynSymbolTable64 (syms : List DynSym)
  | rela64 (relas : List Rela)
  | otherData
deriving DecidableEq, Repr

/-- An ELF section: its name and its payload. -/
structure Section where
  name : String
  data : SectionData
deriving DecidableEq, Repr

/-- Program-header type (`xmas_elf::program::Type`), collapsed to the two types
the converter distinguishes. -/
inductive PhType where
  | load
  | dynamic
  | otherType (n : Nat)
deriving DecidableEq, Repr

/-- Payload of a program segment as classified by `ProgramHeader::get_data`:
`undefBytes` carries the file-backed bytes of a loadable segment,
`dynamic64` the entries of the PT_DYNAMIC segment. -/
inductive SegmentData where
  | undefBytes (bytes : List Nat)
  | dynamic64 (entries : List DynEntry)
  | otherSeg
deriving DecidableEq, Repr

/-- A program header together with its segment payload.  `flags` is the ELF
p_flags word: PF_X = 1, PF_W = 2, PF_R = 4. -/
structure Phdr where
  ptype : PhType
  flags : Nat
  vaddr : Nat
  memSize : Nat
  data : SegmentData
deriving DecidableEq, Repr

/-- The ELF header class field (`xmas_elf::header::Class`). -/
inductive HeaderClass where
  | none64
  | thirtyTwo
  | sixtyFour
  | otherClass (n : Nat)
deriving DecidableEq, Repr

/-- An ELF file: the header class, the section table and the program headers. -/
structure ElfFile where
  pt1class : HeaderClass
  sections : List Section
  phdrs : List Phdr
deriving DecidableEq, Repr

/-- The six required dynamic symbols (struct `Symbols` of elf2sgxs.rs). -/
structure Symbols where
  sgx_entry : DynSym
  HEAP_BASE : DynSym
  HEAP_SIZE : DynSym
  RELA : DynSym
  RELACOUNT : DynSym
  ENCLAVE_SIZE : DynSym
deriving DecidableEq, Repr

/-- The DT_RELA / DT_RELACOUNT pair (struct `Dynamic` of elf2sgxs.rs). -/
structure DynamicPair where
  rela : DynEntry
  relacount : DynEntry
deriving DecidableEq, Repr

/-- A splice: an (address, 64-bit value) overlay (struct `Splice`).  Splices
compare by address only. -/
structure Splice where
  addr : Nat
  val : Nat
deriving DecidableEq, Repr

/-- Inserts a splice into an address-sorted list, after any splice of equal
address (stable, like the slice sort used by the source). -/
def insertSplice (s : Splice) : List Splice → List Splice
  | [] => [s]
  | t :: ts => if s.addr < t.addr then s :: t :: ts else t :: insertSplice s ts

/-- Stable ascending sort by address: `splices.sort()` of elf2sgxs.rs line
282 (`Splice` orders by its address field). -/
def sortSplices : List Splice → List Splice
  | [] => []
  | s :: ss => insertSplice s (sortSplices ss)

/-- The validated layout information (struct `LayoutInfo`). -/
structure LayoutInfo where
  elf : ElfFile
  sym : Symbols
  dyn : Option DynamicPair
  ssaframesize : Nat
  heap_size : Nat
  stack_size : Nat
  debug : Bool
deriving DecidableEq, Repr

/-- SGX page type carried in a SECINFO. -/
inductive PageType where
  | reg
  | tcs
deriving DecidableEq, Repr

/-- Truncated SECINFO: the page type plus the R/W/X permission flags. -/
structure SecinfoTruncated where
  pt : PageType
  r : Bool
  w : Bool
  x : Bool
deriving DecidableEq, Repr

/-- The R|W REG SECINFO used for heap, stack, TLS and SSA pages. -/
def rwReg : SecinfoTruncated := ⟨.reg, true, true, false⟩

/-- Thread control structure (sgx_isa::Tcs).  The sgx_isa crate is not part of
this repository; the fields follow the hardware TCS named in the spec (§4.5),
with every field defaulting to zero as `Tcs::default()` does. -/
structure Tcs where
  flags : Nat := 0
  ossa : Nat := 0
  cssa : Nat := 0
  nssa : Nat := 0
  oentry : Nat := 0
  aep : Nat := 0
  ofsbasgx : Nat := 0
  ogsbasgx : Nat := 0
  fslimit : Nat := 0
  gslimit : Nat := 0
deriving DecidableEq, Repr

/-- One call to the canonical SGXS writer, recorded instead of serialised:
`ecreate` is the measurement record passed to `CanonicalSgxsWriter::new`,
`pages` a `write_pages`/`write_page` call carrying an optional byte stream, a
page count, an optional start address (`none` = the writer's running cursor)
and a SECINFO, and `tcsPage` the `write_page` call that carries the TCS
structure (the source transmutes the structure to its 4096-byte hardware
image; the byte layout lives in the external sgx_isa crate, so the structured
value is recorded instead). -/
inductive Record where
  | ecreate (size : Nat) (ssaframesize : Nat)
  | pages (data : Option (List Nat)) (count : Nat) (addr : Option Nat) (secinfo : SecinfoTruncated)
  | tcsPage (addr : Option Nat) (tcs : Tcs)
deriving DecidableEq, Repr

/- ===================== ELF inspector ===================== -/

/-- The six required symbol names, in the order `read_syms!` is instantiated. -/
def sixNames : List String :=
  ["sgx_entry", "HEAP_BASE", "HEAP_SIZE", "RELA", "RELACOUNT", "ENCLAVE_SIZE"]

/-- Occurrences of symbol name `n` in a symbol list. -/
def countName (l : List DynSym) (n : String) : Nat :=
  (l.filter fun y => y.name = n).length

/-- State of the `read_syms!` walk: one `Option` slot per required name. -/
structure SymState where
  sgx_entry : Option DynSym := none
  HEAP_BASE : Option DynSym := none
  HEAP_SIZE : Option DynSym := none
  RELA : Option DynSym := none
  RELACOUNT : Option DynSym := none
  ENCLAVE_SIZE : Option DynSym := none
deriving DecidableEq, Repr

/-- The entry walk of the `read_syms!` macro (elf2sgxs.rs lines 117-125): each
entry must be defined; an entry bearing one of the six required names fills
its slot, a second occurrence is a duplicate error; any other entry is passed
over. -/
def readSymsLoop : List DynSym → SymState → Except Error SymState
  | [], st => .ok st
  | sym :: rest, st =>
    if sym.shndx = SHN_UNDEF then .error (.DynamicSymbolUndefined sym.name)
    else if sym.name = "sgx_entry" then
      match st.sgx_entry with
      | some _ => .error (.DynamicSymbolDuplicate "sgx_entry")
      | none => readSymsLoop rest { st with sgx_entry := some sym }
    else if sym.name = "HEAP_BASE" then
      match st.HEAP_BASE with
      | some _ => .error (.DynamicSymbolDuplicate "HEAP_BASE")
      | none => readSymsLoop rest { st with HEAP_BASE := some sym }
    else if sym.name = "HEAP_SIZE" then
      match st.HEAP_SIZE with
      | some _ => .error (.DynamicSymbolDuplicate "HEAP_SIZE")
      | none => readSymsLoop rest { st with HEAP_SIZE := some sym }
    else if sym.name = "RELA" then
      match st.RELA with
      | some _ => .error (.DynamicSymbolDuplicate "RELA")
      | none => readSymsLoop rest { st with RELA := some sym }
    else if sym.name = "RELACOUNT" then
      match st.RELACOUNT with
      | some _ => .error (.DynamicSymbolDuplicate "RELACOUNT")
      | none => readSymsLoop rest { st with RELACOUNT := some sym }
    else if sym.name = "ENCLAVE_SIZE" then
      match st.ENCLAVE_SIZE with
      | some _ => .error (.DynamicSymbolDuplicate "ENCLAVE_SIZE")
      | none => readSymsLoop rest { st with ENCLAVE_SIZE := some sym }
    else readSymsLoop rest st

/-- The list of required names whose slot is still empty after the walk, in
macro order (the `missing` vector of `read_syms!`). -/
def missingList (st : SymState) : List String :=
  (if st.sgx_entry.isNone then ["sgx_entry"] else []) ++
  (if st.HEAP_BASE.isNone then ["HEAP_BASE"] else []) ++
  (if st.HEAP_SIZE.isNone then ["HEAP_SIZE"] else []) ++
  (if st.RELA.isNone then ["RELA"] else []) ++
  (if st.RELACOUNT.isNone then ["RELACOUNT"] else []) ++
  (if st.ENCLAVE_SIZE.isNone then ["ENCLAVE_SIZE"] else [])

/-- The `read_syms!` macro (elf2sgxs.rs lines 114-136): walk the entries after
the initial reserved one, then require all six names present (the
`if let (Some..,..) = tuple` of the source, written as a dependent presence
test), reporting the missing ones in macro order otherwise. -/
def read_syms (syms : List DynSym) : Except Error Symbols :=
  match readSymsLoop (syms.drop 1) {} with
  | .error e => .error e
  | .ok st =>
    if h : st.sgx_entry.isSome ∧ st.HEAP_BASE.isSome ∧ st.HEAP_SIZE.isSome
        ∧ st.RELA.isSome ∧ st.RELACOUNT.isSome ∧ st.ENCLAVE_SIZE.isSome then
      .ok ⟨st.sgx_entry.get h.1, st.HEAP_BASE.get h.2.1, st.HEAP_SIZE.get h.2.2.1,
           st.RELA.get h.2.2.2.1, st.RELACOUNT.get h.2.2.2.2.1,
           st.ENCLAVE_SIZE.get h.2.2.2.2.2⟩
    else .error (.DynamicSymbolMissing (missingList st))

/-- The walk-state slot for a required name (none for other names). -/
def stGet (st : SymState) (n : String) : Option DynSym :=
  if n = "sgx_entry" then st.sgx_entry
  else if n = "HEAP_BASE" then st.HEAP_BASE
  else if n = "HEAP_SIZE" then st.HEAP_SIZE
  else if n = "RELA" then st.RELA
  else if n = "RELACOUNT" then st.RELACOUNT
  else if n = "ENCLAVE_SIZE" then st.ENCLAVE_SIZE
  else none

/-- Fills the walk-state slot for a required name (identity for other names). -/
def stSet (st : SymState) (n : String) (y : DynSym) : SymState :=
  if n = "sgx_entry" then { st with sgx_entry := some y }
  else if n = "HEAP_BASE" then { st with HEAP_BASE := some y }
  else if n = "HEAP_SIZE" then { st with HEAP_SIZE := some y }
  else if n = "RELA" then { st with RELA := some y }
  else if n = "RELACOUNT" then { st with RELACOUNT := some y }
  else if n = "ENCLAVE_SIZE" then { st with ENCLAVE_SIZE := some y }
  else st

/-- The state after walking `syms` from state `st` without error: each empty
slot is filled by the first entry bearing its name. -/
def stUpdateAll (st : SymState) (syms : List DynSym) : SymState :=
  ⟨st.sgx_entry.or (syms.find? fun y => y.name = "sgx_entry"),
   st.HEAP_BASE.or (syms.find? fun y => y.name = "HEAP_BASE"),
   st.HEAP_SIZE.or (syms.find? fun y => y.name = "HEAP_SIZE"),
   st.RELA.or (syms.find? fun y => y.name = "RELA"),
   st.RELACOUNT.or (syms.find? fun y => y.name = "RELACOUNT"),
   st.ENCLAVE_SIZE.or (syms.find? fun y => y.name = "ENCLAVE_SIZE")⟩

/-- Embeds `LayoutInfo::check_symbols` (elf2sgxs.rs lines 149-167): locate the
`.dynsym` section, run the symbol walk, then check that each of the five data
symbols has size exactly 8 (in source order). -/
def check_symbols (elf : ElfFile) : Except Error Symbols :=
  match elf.sections.find? (fun s => s.name = ".dynsym") with
  | none => .error .DynamicSymbolTableNotFound
  | some dynsym =>
    match dynsym.data with
    | .dynSymbolTable64 syms =>
      match read_syms syms with
      | .error e => .error e
      | .ok s =>
        if s.HEAP_BASE.size ≠ 8 then
          .error (.DynamicSymbolIncorrectSize "HEAP_BASE" 8 s.HEAP_BASE.size)
        else if s.HEAP_SIZE.size ≠ 8 then
          .error (.DynamicSymbolIncorrectSize "HEAP_SIZE" 8 s.HEAP_SIZE.size)
        else if s.RELA.size ≠ 8 then
          .error (.DynamicSymbolIncorrectSize "RELA" 8 s.RELA.size)
        else if s.RELACOUNT.size ≠ 8 then
          .error (.DynamicSymbolIncorrectSize "RELACOUNT" 8 s.RELACOUNT.size)
        else if s.ENCLAVE_SIZE.size ≠ 8 then
          .error (.DynamicSymbolIncorrectSize "ENCLAVE_SIZE" 8 s.ENCLAVE_SIZE.size)
        else .ok s
    | _ => .error .DynamicSymbolTableNotInDynsymSection

/-- The dynamic-entry walk of `check_dynamic` (elf2sgxs.rs lines 181-203):
classify every tag, recording DT_RELA and DT_RELACOUNT at most once each. -/
def checkDynLoop : List DynEntry → Option DynEntry → Option DynEntry →
    Except Error (Option DynEntry × Option DynEntry)
  | [], rela, relacount => .ok (rela, relacount)
  | e :: rest, rela, relacount =>
    match e.tag with
    | .pltRelSize => .error .DynEntryUnsupportedPLTGOT
    | .pltRel => .error .DynEntryUnsupportedPLTGOT
    | .jmpRel => .error .DynEntryUnsupportedPLTGOT
    | .initTag => .error .DynEntryUnsupportedInitFunction
    | .initArray => .error .DynEntryUnsupportedInitFunction
    | .initArraySize => .error .DynEntryUnsupportedInitFunction
    | .finiTag => .error .DynEntryUnsupportedFiniFunction
    | .finiArray => .error .DynEntryUnsupportedFiniFunction
    | .finiArraySize => .error .DynEntryUnsupportedFiniFunction
    | .rel => .error .DynEntryUnsupportedImplicitReloc
    | .relSize => .error .DynEntryUnsupportedImplicitReloc
    | .relEnt => .error .DynEntryUnsupportedImplicitReloc
    | .rela =>
      match rela with
      | some _ => .error .DynEntryDuplicateDtRela
      | none => checkDynLoop rest (some e) relacount
    | .osSpecific n =>
      if n = 0x6ffffffa then .error .DynEntryUnsupportedImplicitReloc
      else if n = 0x6ffffff9 then
        match relacount with
        | some _ => .error .DynEntryDuplicateDtRelacount
        | none => checkDynLoop rest rela (some e)
      else checkDynLoop rest rela relacount
    | .other _ => checkDynLoop rest rela relacount

/-- Embeds `LayoutInfo::check_dynamic` (elf2sgxs.rs lines 169-217): locate the
PT_DYNAMIC segment, walk its entries, then require DT_RELA and DT_RELACOUNT to
be both present or both absent. -/
def check_dynamic (elf : ElfFile) : Except Error (Option DynamicPair) :=
  match elf.phdrs.find? (fun ph => ph.ptype = .dynamic) with
  | none => .error .DynamicSectionNotFound
  | some dynh =>
    match dynh.data with
    | .dynamic64 dyns =>
      match checkDynLoop dyns none none with
      | .error e => .error e
      | .ok (some rela, some relacount) => .ok (some ⟨rela, relacount⟩)
      | .ok (none, none) => .ok none
      | .ok (some _, none) => .error .DynEntryFoundDtRelaButNotDtRelacount
      | .ok (none, some _) => .error .DynEntryFoundDtRelacountButNotDtRela
    | _ => .error .DynamicSectionNotInPtDynamicSegment

/-- The RELA entries of a section: its payload when that is a 64-bit RELA
table, nothing otherwise. -/
def relasOf (sec : Section) : List Rela :=
  match sec.data with
  | .rela64 rs => rs
  | _ => []

/-- The `[start, end)` virtual ranges of writable loadable segments
(elf2sgxs.rs lines 224-227). -/
def writableRanges (phdrs : List Phdr) : List (Nat × Nat) :=
  phdrs.filterMap fun ph =>
    if ph.ptype = .load ∧ ph.flags &&& 2 = 2 then some (ph.vaddr, ph.vaddr + ph.memSize)
    else none

/-- Validation of one RELA table (elf2sgxs.rs lines 233-243): each entry must
be (symbol-table index 0, type 8 = R_X86_64_RELATIVE) and its 8 bytes must lie
inside some writable loadable segment. -/
def checkRelaList (ranges : List (Nat × Nat)) : List Rela → Except Error Unit
  | [] => .ok ()
  | r :: rest =>
    if (r.symIdx, r.rtype) ≠ (0, 8) then .error (.RelocationInvalid r.symIdx r.rtype)
    else if (ranges.find? fun rg => decide (rg.1 ≤ r.offset) && decide (r.offset + 8 ≤ rg.2)).isNone then
      .error (.RelocationOutsideWritableSegment r.offset)
    else checkRelaList ranges rest

/-- The section sweep of `check_relocs` (elf2sgxs.rs lines 229-245): count and
validate the entries of every RELA section. -/
def checkSectionsLoop (ranges : List (Nat × Nat)) (count : Nat) :
    List Section → Except Error Nat
  | [] => .ok count
  | sec :: rest =>
    match checkRelaList ranges (relasOf sec) with
    | .error e => .error e
    | .ok _ => checkSectionsLoop ranges (count + (relasOf sec).length) rest

/-- Embeds `LayoutInfo::check_relocs` (elf2sgxs.rs lines 219-253). -/
def check_relocs (elf : ElfFile) (dyn : Option DynamicPair) : Except Error Unit :=
  match checkSectionsLoop (writableRanges elf.phdrs) 0 elf.sections with
  | .error e => .error e
  | .ok count =>
    let target := (dyn.map fun d => d.relacount.val).getD 0
    if count ≠ target then .error (.RelocationInvalidCount target count)
    else .ok ()

/-- Embeds `LayoutInfo::new` (elf2sgxs.rs lines 255-272): class check, then
symbol, dynamic-entry and relocation validation; the configuration values are
stored unchanged. -/
def LayoutInfo.new (elf : ElfFile) (ssaframesize heap_size stack_size : Nat)
    (debug : Bool) : Except Error LayoutInfo :=
  match elf.pt1class with
  | .sixtyFour =>
    match check_symbols elf with
    | .error e => .error e
    | .ok sym =>
      match check_dynamic elf with
      | .error e => .error e
      | .ok dyn =>
        match check_relocs elf dyn with
        | .error e => .error e
        | .ok _ => .ok ⟨elf, sym, dyn, ssaframesize, heap_size, stack_size, debug⟩
  | _ => .error .ElfClassNot64

/- ===================== Splice engine and emitter ===================== -/

/-- The page base of a loadable segment: `start & !0xfff` (its low 12 bits
cleared), written as div/mod arithmetic on Nat. -/
def segBase (ph : Phdr) : Nat := ph.vaddr - ph.vaddr % 0x1000

/-- The end of a segment's virtual range: `start + mem_size`. -/
def segEnd (ph : Phdr) : Nat := ph.vaddr + ph.memSize

/-- The file-backed bytes of a segment (`SegmentData::Undefined(data)`; the
other arms are unreachable for a loadable segment). -/
def segFileData (ph : Phdr) : List Nat :=
  match ph.data with
  | .undefBytes b => b
  | _ => []

/-- The splice while-loop of `write_elf_segments` (elf2sgxs.rs lines 313-324):
while the next splice s satisfies `base <= s.addr` and `s.addr + 8 < end`,
rebuild the stream as its first `s.addr - base` bytes, the 8 value bytes, and
the remaining segment bytes starting at `s.addr + 8` (zero fill up to `start`
first when `s.addr + 8 < start`).  When `s.addr + 8` exceeds
`start + data.length` the source panics on the slice index
`base_data[(cur_ptr - start)..]`; this total embedding returns the bytes of
the in-range prefix instead, and the theorems below restrict to panic-free
inputs. -/
def spliceLoop (stream : List Nat) (base start e : Nat) (data : List Nat) :
    List Splice → List Nat × List Splice
  | [] => (stream, [])
  | s :: rest =>
    if base ≤ s.addr ∧ s.addr + 8 < e then
      let nd := stream.take (s.addr - base) ++ le64 s.val
      let cur := s.addr + 8
      let nd := if cur < start then nd ++ List.replicate (start - cur) 0 ++ data
                else nd ++ data.drop (cur - start)
      spliceLoop nd base start e data rest
    else (stream, s :: rest)

/-- The per-segment body of `write_elf_segments` (elf2sgxs.rs lines 291-324):
the initial stream is the 8 value bytes of the next splice when its address
equals the page base, otherwise the segment bytes preceded by zero fill for
`[base, start)`; the while loop then applies the in-window splices.  Returns
the byte stream handed to `write_pages` and the unconsumed splices. -/
def processSegment (sps : List Splice) (ph : Phdr) : List Nat × List Splice :=
  let start := ph.vaddr
  let base := segBase ph
  let e := segEnd ph
  let data := segFileData ph
  match sps with
  | s :: rest =>
    if base = s.addr then spliceLoop (le64 s.val) base start e data rest
    else if base = start then spliceLoop data base start e data sps
    else spliceLoop (List.replicate (start - base) 0 ++ data) base start e data sps
  | [] =>
    if base = start then spliceLoop data base start e data []
    else spliceLoop (List.replicate (start - base) 0 ++ data) base start e data []

/-- SECINFO of a loadable segment (elf2sgxs.rs lines 287-290): REG page type,
each permission flag set iff the matching ELF segment flag is set. -/
def phSecinfo (ph : Phdr) : SecinfoTruncated :=
  { pt := .reg,
    r := ph.flags &&& 0x4 ≠ 0,
    w := ph.flags &&& 0x2 ≠ 0,
    x := ph.flags &&& 0x1 ≠ 0 }

/-- The segment sweep of `write_elf_segments` (elf2sgxs.rs lines 285-327):
every loadable segment, in file order, becomes one `write_pages` call of
`size_align_page_size(end - base) / 0x1000` pages at `base`, the splice cursor
threading through. -/
def segsLoop (sps : List Splice) : List Phdr → List Record
  | [] => []
  | ph :: rest =>
    if ph.ptype = .load then
      let r := processSegment sps ph
      Record.pages (some r.1) (size_align_page_size (segEnd ph - segBase ph) / 0x1000)
          (some (segBase ph)) (phSecinfo ph) :: segsLoop r.2 rest
    else segsLoop sps rest

/-- Embeds `LayoutInfo::write_elf_segments` (elf2sgxs.rs lines 274-330): build
the five splices, sort them by address, and emit every loadable segment. -/
def LayoutInfo.write_elf_segments (li : LayoutInfo) (heap_addr esize : Nat) :
    List Record :=
  let splices := sortSplices
    [⟨li.sym.HEAP_BASE.value, heap_addr⟩,
     ⟨li.sym.HEAP_SIZE.value, li.heap_size⟩,
     ⟨li.sym.RELA.value, (li.dyn.map fun d => d.rela.val).getD 0⟩,
     ⟨li.sym.RELACOUNT.value, (li.dyn.map fun d => d.relacount.val).getD 0⟩,
     ⟨li.sym.ENCLAVE_SIZE.value, esize⟩]
  segsLoop splices li.elf.phdrs

/-- The addresses computed at the head of `LayoutInfo::write`. -/
structure Layout where
  max_addr : Nat
  heap_addr : Nat
  stack_addr : Nat
  stack_tos : Nat
  tls_addr : Nat
  tcs_addr : Nat
  enclave_size : Nat
deriving DecidableEq, Repr

/-- The address computation of `LayoutInfo::write` (elf2sgxs.rs lines
333-343), up to and including the enclave size, all performed before the
canonical writer is constructed. -/
def computeLayout (li : LayoutInfo) : Except Error Layout :=
  match (li.elf.phdrs.filterMap fun ph =>
      if ph.ptype = .load then some (ph.vaddr + ph.memSize) else none).max? with
  | none => .error .NoLoadableSegments
  | some max_addr =>
    let heap_addr := size_align_page_size max_addr
    let stack_addr := heap_addr + li.heap_size + 0x10000
    let stack_tos := stack_addr + li.stack_size
    let tls_addr := stack_tos
    let tcs_addr := tls_addr + 0x1000
    match enclave_size (tcs_addr + (1 + 2 * li.ssaframesize) * 0x1000) with
    | .error e => .error e
    | .ok esize => .ok ⟨max_addr, heap_addr, stack_addr, stack_tos, tls_addr, tcs_addr, esize⟩

/-- Embeds `LayoutInfo::write` (elf2sgxs.rs lines 332-381): compute the
layout, then emit the ECREATE record, the ELF segments, the heap, the stack,
the TLS page, the TCS page and the SSA pages, in that order. -/
def LayoutInfo.write (li : LayoutInfo) : Except Error (List Record) :=
  match computeLayout li with
  | .error e => .error e
  | .ok L =>
    .ok ([Record.ecreate L.enclave_size li.ssaframesize]
      ++ li.write_elf_segments L.heap_addr L.enclave_size
      ++ [Record.pages none (li.heap_size / 0x1000) (some L.heap_addr) rwReg,
          Record.pages none (li.stack_size / 0x1000) (some L.stack_addr) rwReg,
          Record.pages (some (le64 L.stack_tos ++ le64 0)) 1 (some L.tls_addr) rwReg,
          Record.tcsPage (some L.tcs_addr)
            { ossa := L.tcs_addr + 0x1000,
              nssa := if li.debug then 2 else 1,
              oentry := li.sym.sgx_entry.value,
              ofsbasgx := L.tls_addr,
              ogsbasgx := L.stack_tos,
              fslimit := 0xfff,
              gslimit := 0xfff },
          Record.pages none (2 * li.ssaframesize) none rwReg])

/-- A whole conversion: validate with `LayoutInfo::new`, then emit with
`write`.  The result pairs the records actually handed to the writer with the
error, if any; in the source every validation and layout error is raised
before the first writer call, which this embedding mirrors (downstream writer
failures, wrapped as `Error::Sgxs`, belong to the external writer and are not
modelled). -/
def convert (elf : ElfFile) (ssaframesize heap_size stack_size : Nat)
    (debug : Bool) : List Record × Option Error :=
  match LayoutInfo.new elf ssaframesize heap_size stack_size debug with
  | .error e => ([], some e)
  | .ok li =>
    match li.write with
    | .error e => ([], some e)
    | .ok rs => (rs, none)

/- ===================== Spec-side definitions ===================== -/

/-- Page-aligned round-up as the spec writes it: `ceil4k(x) = (x + 0xFFF) & ~0xFFF`
(the mask clears the low 12 bits, i.e. truncates to a multiple of 0x1000). -/
def ceil4k (x : Nat) : Nat := (x + 0xFFF) / 0x1000 * 0x1000

/-- Overwrites `bytes` into `buf` starting at offset `off` (spec §4.4: "the 8
bytes at A are replaced"). -/
def writeBytesAt (buf : List Nat) (off : Nat) (bytes : List Nat) : List Nat :=
  buf.take off ++ bytes ++ buf.drop (off + bytes.length)

/-- The segment's bytes placed at `start` with zero fill for `[base, start)`
(spec §4.4), indexed from the page base. -/
def segBuf (ph : Phdr) : List Nat :=
  List.replicate (ph.vaddr - segBase ph) 0 ++ segFileData ph

/-- The declarative splice contract of spec §4.4: the segment bytes with, for
each listed splice in order, the 8 bytes at its address replaced by the
little-endian encoding of its value. -/
def overlaySplices (sps : List Splice) (ph : Phdr) : List Nat :=
  sps.foldl (fun buf s => writeBytesAt buf (s.addr - segBase ph) (le64 s.val)) (segBuf ph)

/-- Least power of two that is at least `n`. -/
def IsLeastPow2Geq (n p : Nat) : Prop :=
  (∃ k, p = 2 ^ k) ∧ n ≤ p ∧ ∀ q, (∃ k, q = 2 ^ k) → n ≤ q → p ≤ q

/-- The per-segment page emissions as the spec words them (§4.5 item 2): every
loadable segment in file order, `ceil4k(virtual_addr + mem_size - base) / 0x1000`
pages at `base = virtual_addr & ~0xFFF`, REG SECINFO with R/W/X iff the ELF
flags, page bytes produced by the splice engine of §4.4. -/
def emissionSegs (sps : List Splice) : List Phdr → List Record
  | [] => []
  | ph :: rest =>
    if ph.ptype = .load then
      let r := processSegment sps ph
      Record.pages (some r.1)
          (ceil4k (ph.vaddr + ph.memSize - (ph.vaddr - ph.vaddr % 0x1000)) / 0x1000)
          (some (ph.vaddr - ph.vaddr % 0x1000))
          ⟨.reg, ph.flags &&& 0x4 ≠ 0, ph.flags &&& 0x2 ≠ 0, ph.flags &&& 0x1 ≠ 0⟩
        :: emissionSegs r.2 rest
    else emissionSegs sps rest

/-- The ordered emission sequence as claim C2 words it: ECREATE, the loadable
segments, the heap pages, the stack pages, the TLS page (first 16 bytes the
little-endian encoding of `[stack_tos, 0]`), the TCS page, and the
`2 * ssa_frame_size` SSA pages at the writer's running cursor. -/
def emissionSpec (li : LayoutInfo) (L : Layout) : List Record :=
  [Record.ecreate L.enclave_size li.ssaframesize]
  ++ emissionSegs (sortSplices
      [⟨li.sym.HEAP_BASE.value, L.heap_addr⟩,
       ⟨li.sym.HEAP_SIZE.value, li.heap_size⟩,
       ⟨li.sym.RELA.value, (li.dyn.map fun d => d.rela.val).getD 0⟩,
       ⟨li.sym.RELACOUNT.value, (li.dyn.map fun d => d.relacount.val).getD 0⟩,
       ⟨li.sym.ENCLAVE_SIZE.value, L.enclave_size⟩]) li.elf.phdrs
  ++ [Record.pages none (li.heap_size / 0x1000) (some L.heap_addr) ⟨.reg, true, true, false⟩,
      Record.pages none (li.stack_size / 0x1000) (some L.stack_addr) ⟨.reg, true, true, false⟩,
      Record.pages (some (le64 L.stack_tos ++ le64 0)) 1 (some L.tls_addr) ⟨.reg, true, true, false⟩,
      Record.tcsPage (some L.tcs_addr)
        { ossa := L.tcs_addr + 0x1000,
          nssa := if li.debug then 2 else 1,
          oentry := li.sym.sgx_entry.value,
          ofsbasgx := L.tls_addr,
          ogsbasgx := L.stack_tos,
          fslimit := 0xfff,
          gslimit := 0xfff },
      Record.pages none (2 * li.ssaframesize) none ⟨.reg, true, true, false⟩]

/-- Total number of RELA entries across all sections. -/
def totalRelas (elf : ElfFile) : Nat :=
  (elf.sections.map fun s => (relasOf s).length).sum

/-- The relocation-count target: DT_RELACOUNT's value, 0 when the pair is
absent. -/
def relocTarget (dyn : Option DynamicPair) : Nat :=
  (dyn.map fun d => d.relacount.val).getD 0

/- ===================== Concrete example inputs ===================== -/

/-- An ELF with no sections and no program headers. -/
def elfEmpty : ElfFile := ⟨.sixtyFour, [], []⟩

/-- The six required symbols of the sample ELF.  `sgx_entry` deliberately has
size 0 (its size is unconstrained); the five data symbols have size 8 and sit
at address 0x5000, outside every segment. -/
def symSgxEntry : DynSym := ⟨"sgx_entry", 1, 0, 0x1000⟩

/-- HEAP_BASE symbol of the sample ELF. -/
def symHeapBase : DynSym := ⟨"HEAP_BASE", 1, 8, 0x5000⟩

/-- HEAP_SIZE symbol of the sample ELF. -/
def symHeapSize : DynSym := ⟨"HEAP_SIZE", 1, 8, 0x5000⟩

/-- RELA symbol of the sample ELF. -/
def symRela : DynSym := ⟨"RELA", 1, 8, 0x5000⟩

/-- RELACOUNT symbol of the sample ELF. -/
def symRelacount : DynSym := ⟨"RELACOUNT", 1, 8, 0x5000⟩

/-- ENCLAVE_SIZE symbol of the sample ELF. -/
def symEnclaveSize : DynSym := ⟨"ENCLAVE_SIZE", 1, 8, 0x5000⟩

/-- The `.dynsym` section of the sample ELF: the reserved first entry followed
by the six required symbols. -/
def dynsymSection : Section :=
  ⟨".dynsym", .dynSymbolTable64
    [⟨"", 0, 0, 0⟩, symSgxEntry, symHeapBase, symHeapSize, symRela, symRelacount, symEnclaveSize]⟩

/-- The single loadable segment of the sample ELF: 0x20 file-backed bytes at
0x1000, flags R|X. -/
def samplePh : Phdr :=
  ⟨.load, 5, 0x1000, 0x20, .undefBytes ((List.range 0x20).map fun i => i + 1)⟩

/-- The PT_DYNAMIC segment of the sample ELF, with no entries. -/
def sampleDynPh : Phdr := ⟨.dynamic, 6, 0x2000, 0x10, .dynamic64 []⟩

/-- A minimal ELF accepted by `LayoutInfo::new`. -/
def sampleElf : ElfFile := ⟨.sixtyFour, [dynsymSection], [samplePh, sampleDynPh]⟩

/-- The symbols `check_symbols` returns for `sampleElf`. -/
def sampleSyms : Symbols :=
  ⟨symSgxEntry, symHeapBase, symHeapSize, symRela, symRelacount, symEnclaveSize⟩

/-- The layout info `LayoutInfo::new` returns for `sampleElf` with
ssaframesize 1, heap 0x1000, stack 0x1000, debug off. -/
def sampleLi : LayoutInfo := ⟨sampleElf, sampleSyms, none, 1, 0x1000, 0x1000, false⟩

/-- The layout info `LayoutInfo::new` returns for `sampleElf` with the
non-page-multiple configuration heap_size = 1, stack_size = 1. -/
def sampleLiOdd : LayoutInfo := ⟨sampleElf, sampleSyms, none, 1, 1, 1, false⟩

/-- The layout `computeLayout` produces for `sampleLi`. -/
def sampleLayout : Layout :=
  ⟨0x1020, 0x2000, 0x13000, 0x14000, 0x14000, 0x15000, 0x20000⟩

/-- The record list `sampleLi.write` produces. -/
def sampleRecords : List Record :=
  match sampleLi.write with
  | .ok rs => rs
  | .error _ => []

/-- A layout info whose ELF has no loadable segments. -/
def liNoLoad : LayoutInfo :=
  ⟨⟨.sixtyFour, [dynsymSection], [sampleDynPh]⟩, sampleSyms, none, 1, 0x1000, 0x1000, false⟩

/-- A writable loadable segment for the relocation examples. -/
def relocPh : Phdr := ⟨.load, 6, 0x3000, 0x1000, .undefBytes []⟩

/-- An ELF with one valid RELA entry inside its writable segment. -/
def relocElf : ElfFile :=
  ⟨.sixtyFour, [⟨".rela.dyn", .rela64 [⟨0x3000, 0, 8⟩]⟩], [relocPh]⟩

/-- A DT_RELA / DT_RELACOUNT pair claiming two relocations. -/
def relocPairTwo : DynamicPair :=
  ⟨⟨.rela, 0x3000⟩, ⟨.osSpecific 0x6ffffff9, 2⟩⟩

/-- A 16-byte aligned loadable segment used by the splice counterexample. -/
def cexPhEnd : Phdr := ⟨.load, 5, 0x1000, 16, .undefBytes (List.replicate 16 0xAA)⟩

/-- A 16-byte aligned loadable segment whose splice sits exactly at the page
base. -/
def cexPhBase : Phdr := ⟨.load, 5, 0x2000, 16, .undefBytes (List.replicate 16 0xBB)⟩

/-- An unaligned loadable segment used by the splice witness: 0x30 file bytes
at 0x1010. -/
def witnessPh : Phdr :=
  ⟨.load, 5, 0x1010, 0x30, .undefBytes ((List.range 0x30).map fun i => i + 1)⟩

/- ===================== Helper lemmas ===================== -/

theorem log2Fuel_eq_log2 (fuel : Nat) : ∀ n, n < 2 ^ fuel → log2Fuel fuel n = Nat.log2 n := by
  induction fuel with
  | zero =>
    intro n hn
    interval_cases n
    simp [log2Fuel, Nat.log2]
  | succ f ih =>
    intro n hn
    rw [log2Fuel, Nat.log2]
    by_cases h2 : 2 ≤ n
    · rw [if_pos h2, if_pos h2, ih (n / 2) (by omega)]
    · rw [if_neg h2, if_neg h2]

theorem log2u64_eq (n : Nat) (hn : n < 2 ^ 64) : log2u64 n = Nat.log2 n :=
  log2Fuel_eq_log2 64 n hn

theorem log2_le_52_of_lt (last : Nat) (h1 : last < 0x20000000000000) :
    Nat.log2 last ≤ 52 := by
  by_contra h
  have h53 : 53 ≤ Nat.log2 last := by omega
  rcases Nat.eq_zero_or_pos last with h0 | h0
  · subst h0; simp [Nat.log2] at h53
  have hle : 2 ^ Nat.log2 last ≤ last := Nat.log2_self_le (by omega)
  have : (2 : Nat) ^ 53 ≤ 2 ^ Nat.log2 last := Nat.pow_le_pow_right (by omega) h53
  have h2 : (2 : Nat) ^ 53 = 0x20000000000000 := by norm_num
  omega


theorem enclave_size_pos (last : Nat) (h0 : 0 < last) (h1 : last < 0x20000000000000) :
    ∃ p, enclave_size last = .ok p ∧ IsLeastPow2Geq last p := by
  have hne : last ≠ 0 := by omega
  have he52 : Nat.log2 last ≤ 52 := log2_le_52_of_lt last h1
  have hlow : 2 ^ Nat.log2 last ≤ last := Nat.log2_self_le hne
  have hhigh : last < 2 ^ (Nat.log2 last + 1) := Nat.lt_log2_self
  rw [enclave_size, if_neg hne, if_neg (by omega)]
  simp only [log2u64_eq last (by omega)]
  set e := Nat.log2 last with hedef
  by_cases hm : last * 2 ^ (52 - e) = 2 ^ 52
  · have hlast : last = 2 ^ e := by
      have hsplit : (2 : Nat) ^ 52 = 2 ^ e * 2 ^ (52 - e) := by
        rw [← pow_add]; congr 1; omega
      exact Nat.eq_of_mul_eq_mul_right (Nat.pos_pow_of_pos _ (by norm_num)) (hm.trans hsplit)
    refine ⟨2 ^ e, by rw [if_pos hm], ⟨e, rfl⟩, hlast.le, ?_⟩
    rintro q ⟨k, rfl⟩ hq
    exact hlast ▸ hq
  · refine ⟨2 ^ (e + 1), by rw [if_neg hm], ⟨e + 1, rfl⟩, le_of_lt hhigh, ?_⟩
    rintro q ⟨k, rfl⟩ hq
    apply Nat.pow_le_pow_right (by norm_num)
    by_contra hk
    have hk' : k ≤ e := by omega
    have h2k : (2 : Nat) ^ k ≤ 2 ^ e := Nat.pow_le_pow_right (by norm_num) hk'
    have hlast : last = 2 ^ k := le_antisymm hq (h2k.trans hlow)
    have hek : (2 : Nat) ^ e = 2 ^ k := le_antisymm (hlast ▸ hlow) h2k
    apply hm
    rw [hlast, ← hek, ← pow_add]
    congr 1
    omega

/- ===================== Claim C4 ===================== -/

/-- C4: for every u64 `last`, `enclave_size` returns Ok(0) when `last = 0`,
fails with EnclaveSizeTooBig exactly when `last ≥ 2^53`, and otherwise returns
the least power of two that is ≥ `last` (so `last` itself when `last` is a
power of two, the next higher power of two otherwise). -/
theorem enclave_size_claim (last : Nat) :
    (last = 0 → enclave_size last = .ok 0)
    ∧ (enclave_size last = .error .EnclaveSizeTooBig ↔ 0x20000000000000 ≤ last)
    ∧ (0 < last → last < 0x20000000000000 →
        ∃ p, enclave_size last = .ok p ∧ IsLeastPow2Geq last p) := by
  refine ⟨fun h0 => by rw [enclave_size, if_pos h0], ?_, enclave_size_pos last⟩
  constructor
  · intro herr
    by_contra hlt
    rcases Nat.eq_zero_or_pos last with h0 | h0
    · rw [enclave_size, if_pos h0] at herr
      exact Except.noConfusion herr
    · obtain ⟨p, hok, -⟩ := enclave_size_pos last h0 (by omega)
      rw [hok] at herr
      exact Except.noConfusion herr
  · intro hge
    rw [enclave_size, if_neg (by omega), if_pos hge]

/-- Witness for C4, at `last = 0x1001`: the computed size is the next power of
two, 0x2000. -/
theorem enclave_size_claim_witness :
    ∃ p, enclave_size 0x1001 = .ok p ∧ IsLeastPow2Geq 0x1001 p :=
  (enclave_size_claim 0x1001).2.2 (by norm_num) (by norm_num)

theorem enclave_size_error (n : Nat) (e : Error) (h : enclave_size n = .error e) :
    e = .EnclaveSizeTooBig := by
  rw [enclave_size] at h
  split at h
  · exact Except.noConfusion h
  split at h
  · injection h with h1
    exact h1.symm
  · dsimp only at h
    split at h <;> exact Except.noConfusion h

/- ===================== Claim C8 ===================== -/

/-- C8: whenever a conversion fails with a validation or layout error (every
`Error`; the wrapped writer error `Sgxs` belongs to the external writer and is
outside this model), no record has been handed to the writer, so the output is
empty; moreover the only errors raised inside `write` itself are
`NoLoadableSegments` and `EnclaveSizeTooBig`, both computed by `computeLayout`
before the canonical writer that begins the stream is constructed. -/
theorem convert_error_no_output :
    (∀ (elf : ElfFile) (s h st : Nat) (d : Bool) (tr : List Record) (e : Error),
        convert elf s h st d = (tr, some e) → tr = [])
    ∧ (∀ (li : LayoutInfo) (e : Error), li.write = .error e →
        e = .NoLoadableSegments ∨ e = .EnclaveSizeTooBig) := by
  constructor
  · intro elf s h st d tr e hconv
    rw [convert] at hconv
    rcases hnew : LayoutInfo.new elf s h st d with e' | li <;>
      simp only [hnew] at hconv
    · injection hconv with h1 h2
      exact h1.symm
    · rcases hw : li.write with e' | rs <;> simp only [hw] at hconv
      · injection hconv with h1 h2
        exact h1.symm
      · injection hconv with h1 h2
        exact Option.noConfusion h2
  · intro li e hw
    rw [LayoutInfo.write] at hw
    rcases hL : computeLayout li with e' | L <;> simp only [hL] at hw
    · injection hw with h1
      subst h1
      rw [computeLayout] at hL
      rcases hm : (li.elf.phdrs.filterMap fun ph =>
          if ph.ptype = .load then some (ph.vaddr + ph.memSize) else none).max? with _ | m <;>
        simp only [hm] at hL
      · injection hL with h2
        exact Or.inl h2.symm
      · rcases he : enclave_size (size_align_page_size m + li.heap_size + 0x10000 +
            li.stack_size + 0x1000 + (1 + 2 * li.ssaframesize) * 0x1000) with e'' | sz <;>
          simp only [he] at hL
        · injection hL with h2
          subst h2
          exact Or.inr (enclave_size_error _ _ he)
        · exact Except.noConfusion hL
    · exact Except.noConfusion hw

/-- Witness for C8: the empty ELF fails validation and the conversion output
is the empty record list. -/
theorem convert_error_no_output_witness :
    (convert elfEmpty 1 0x1000 0x1000 false).1 = [] :=
  convert_error_no_output.1 elfEmpty 1 0x1000 0x1000 false
    (convert elfEmpty 1 0x1000 0x1000 false).1 .DynamicSymbolTableNotFound (by decide)

/- ===================== Claim C9 ===================== -/

/-- C9 counterexample: `LayoutInfo::new` accepts heap_size = 1 and
stack_size = 1, so the produced `LayoutInfo` does not satisfy "heap_size and
stack_size are positive multiples of 4 KiB" — the constructor rejects no
configuration value. -/
theorem new_accepts_any_sizes_cex :
    LayoutInfo.new sampleElf 1 1 1 false = .ok sampleLiOdd
    ∧ sampleLiOdd.heap_size = 1 ∧ sampleLiOdd.stack_size = 1
    ∧ ¬(1 % 0x1000 = 0) := by
  refine ⟨by decide, rfl, rfl, by decide⟩

/-- C9 (amended): `LayoutInfo::new` stores the configured heap_size and
stack_size unchanged and performs no validation on them; the "positive
multiple of 4 KiB" invariant is a precondition on the caller's configuration,
not established by the constructor. -/
theorem new_stores_sizes (elf : ElfFile) (s h st : Nat) (d : Bool) (li : LayoutInfo)
    (hnew : LayoutInfo.new elf s h st d = .ok li) :
    li.heap_size = h ∧ li.stack_size = st ∧ li.ssaframesize = s ∧ li.debug = d := by
  rw [LayoutInfo.new] at hnew
  split at hnew
  · rcases hsym : check_symbols elf with e | sym <;> simp only [hsym] at hnew
    · exact Except.noConfusion hnew
    rcases hdyn : check_dynamic elf with e | dyn <;> simp only [hdyn] at hnew
    · exact Except.noConfusion hnew
    rcases hrel : check_relocs elf dyn with e | u <;> simp only [hrel] at hnew
    · exact Except.noConfusion hnew
    injection hnew with h1
    subst h1
    exact ⟨rfl, rfl, rfl, rfl⟩
  · exact Except.noConfusion hnew

/-- Witness for C9 (amended), at the sample ELF with heap_size = stack_size = 1. -/
theorem new_stores_sizes_witness :
    sampleLiOdd.heap_size = 1 ∧ sampleLiOdd.stack_size = 1
    ∧ sampleLiOdd.ssaframesize = 1 ∧ sampleLiOdd.debug = false :=
  new_stores_sizes sampleElf 1 1 1 false sampleLiOdd (by decide)

/- ===================== Claim C3 ===================== -/

theorem size_align_eq_ceil4k (x : Nat) : size_align_page_size x = ceil4k x := by
  unfold size_align_page_size ceil4k
  rcases h : x % 0x1000 with _ | r <;> simp only [h] <;> omega

theorem filterMap_load_eq (phdrs : List Phdr) :
    (phdrs.filterMap fun ph => if ph.ptype = .load then some (ph.vaddr + ph.memSize) else none)
    = (phdrs.filter fun ph => decide (ph.ptype = PhType.load)).map fun ph =>
        ph.vaddr + ph.memSize := by
  induction phdrs with
  | nil => rfl
  | cons ph rest ih =>
    by_cases h : ph.ptype = PhType.load <;>
      simp [List.filterMap_cons, List.filter_cons, h, ih]

/-- C3: for every ELF with a loadable segment and every configuration, the
addresses computed by `LayoutInfo::write` satisfy the chain max_load_end →
heap_addr = ceil4k(max_load_end) → stack_addr = heap_addr + heap_size +
0x10000 → stack_tos = stack_addr + stack_size → tls_addr = stack_tos →
tcs_addr = tls_addr + 0x1000 → ssa_addr = tcs_addr + 0x1000, and the size
passed to ECREATE is the least power of two ≥ last_page + 0x1000 with
last_page = ssa_addr + 2·ssa_frame_size·0x1000 − 0x1000; with no loadable
segment, `write` fails with NoLoadableSegments. -/
theorem layout_chain_claim (li : LayoutInfo) :
    ((li.elf.phdrs.filter fun ph => decide (ph.ptype = PhType.load)) = [] →
      li.write = .error .NoLoadableSegments)
    ∧ (∀ L, computeLayout li = .ok L →
        ((li.elf.phdrs.filter fun ph => decide (ph.ptype = PhType.load)).map fun ph =>
            ph.vaddr + ph.memSize).max? = some L.max_addr
        ∧ L.heap_addr = ceil4k L.max_addr
        ∧ L.stack_addr = L.heap_addr + li.heap_size + 0x10000
        ∧ L.stack_tos = L.stack_addr + li.stack_size
        ∧ L.tls_addr = L.stack_tos
        ∧ L.tcs_addr = L.tls_addr + 0x1000
        ∧ IsLeastPow2Geq
            (L.tcs_addr + 0x1000 + 2 * li.ssaframesize * 0x1000 - 0x1000 + 0x1000)
            L.enclave_size) := by
  constructor
  · intro hnil
    rw [LayoutInfo.write, computeLayout, filterMap_load_eq, hnil]
    rfl
  · intro L hL
    rw [computeLayout, filterMap_load_eq] at hL
    rcases hm : ((li.elf.phdrs.filter fun ph => decide (ph.ptype = PhType.load)).map fun ph =>
        ph.vaddr + ph.memSize).max? with _ | m <;> simp only [hm] at hL
    · exact Except.noConfusion hL
    rcases he : enclave_size (size_align_page_size m + li.heap_size + 0x10000 +
        li.stack_size + 0x1000 + (1 + 2 * li.ssaframesize) * 0x1000) with e | sz <;>
      simp only [he] at hL
    · exact Except.noConfusion hL
    injection hL with h1
    subst h1
    refine ⟨hm, size_align_eq_ceil4k m, rfl, rfl, rfl, rfl, ?_⟩
    have harg : size_align_page_size m + li.heap_size + 0x10000 + li.stack_size + 0x1000 +
        (1 + 2 * li.ssaframesize) * 0x1000 < 0x20000000000000 := by
      by_contra hc
      rw [enclave_size, if_neg (by omega), if_pos (by omega)] at he
      exact Except.noConfusion he
    obtain ⟨p, hok, hleast⟩ := enclave_size_pos _ (by omega) harg
    rw [hok] at he
    have h2 : p = sz := Except.ok.inj he
    subst h2
    have hexpr : size_align_page_size m + li.heap_size + 0x10000 + li.stack_size + 0x1000 +
        0x1000 + 2 * li.ssaframesize * 0x1000 - 0x1000 + 0x1000
        = size_align_page_size m + li.heap_size + 0x10000 + li.stack_size + 0x1000 +
          (1 + 2 * li.ssaframesize) * 0x1000 := by omega
    simpa only [hexpr] using hleast

set_option maxRecDepth 4096 in
/-- Witness for C3: an ELF with no loadable segment makes `write` fail with
NoLoadableSegments. -/
theorem layout_chain_claim_witness :
    liNoLoad.write = .error .NoLoadableSegments :=
  (layout_chain_claim liNoLoad).1 (by decide)

/- ===================== Claim C5 ===================== -/

theorem mem_writableRanges (phdrs : List Phdr) (rg : Nat × Nat) :
    rg ∈ writableRanges phdrs ↔
      ∃ ph ∈ phdrs, ph.ptype = PhType.load ∧ ph.flags &&& 2 = 2 ∧
        rg = (ph.vaddr, ph.vaddr + ph.memSize) := by
  rw [writableRanges, List.mem_filterMap]
  constructor
  · rintro ⟨ph, hmem, hf⟩
    split at hf
    · next hcond => exact ⟨ph, hmem, hcond.1, hcond.2, (Option.some.inj hf).symm⟩
    · exact Option.noConfusion hf
  · rintro ⟨ph, hmem, h1, h2, h3⟩
    exact ⟨ph, hmem, by rw [if_pos ⟨h1, h2⟩, h3]⟩

/-- The condition checked by `check_relocs` for one RELA entry, phrased over
the program headers as the spec does. -/
def relaValid (phdrs : List Phdr) (r : Rela) : Prop :=
  (r.symIdx = 0 ∧ r.rtype = 8) ∧
    ∃ ph ∈ phdrs, ph.ptype = PhType.load ∧ ph.flags &&& 2 = 2 ∧
      ph.vaddr ≤ r.offset ∧ r.offset + 8 ≤ ph.vaddr + ph.memSize

theorem exists_range_iff (phdrs : List Phdr) (r : Rela) :
    (∃ rg ∈ writableRanges phdrs, rg.1 ≤ r.offset ∧ r.offset + 8 ≤ rg.2) ↔
      ∃ ph ∈ phdrs, ph.ptype = PhType.load ∧ ph.flags &&& 2 = 2 ∧
        ph.vaddr ≤ r.offset ∧ r.offset + 8 ≤ ph.vaddr + ph.memSize := by
  constructor
  · rintro ⟨rg, hrg, h1, h2⟩
    obtain ⟨ph, hmem, hl, hw, heq⟩ := (mem_writableRanges phdrs rg).mp hrg
    subst heq
    exact ⟨ph, hmem, hl, hw, h1, h2⟩
  · rintro ⟨ph, hmem, hl, hw, h1, h2⟩
    exact ⟨(ph.vaddr, ph.vaddr + ph.memSize),
      (mem_writableRanges phdrs _).mpr ⟨ph, hmem, hl, hw, rfl⟩, h1, h2⟩

theorem find_range_isNone (ranges : List (Nat × Nat)) (r : Rela) :
    (ranges.find? fun rg => decide (rg.1 ≤ r.offset) && decide (r.offset + 8 ≤ rg.2)).isNone = true
    ↔ ¬ ∃ rg ∈ ranges, rg.1 ≤ r.offset ∧ r.offset + 8 ≤ rg.2 := by
  rw [Option.isNone_iff_eq_none, List.find?_eq_none]
  simp

theorem checkRelaList_ok_iff (ranges : List (Nat × Nat)) (relas : List Rela) :
    checkRelaList ranges relas = .ok () ↔
      ∀ r ∈ relas, (r.symIdx = 0 ∧ r.rtype = 8) ∧
        ∃ rg ∈ ranges, rg.1 ≤ r.offset ∧ r.offset + 8 ≤ rg.2 := by
  induction relas with
  | nil => simp [checkRelaList]
  | cons r rest ih =>
    rw [checkRelaList]
    by_cases h1 : (r.symIdx, r.rtype) ≠ (0, 8)
    · rw [if_pos h1]
      constructor
      · intro h
        exact Except.noConfusion h
      · intro h
        have := (h r (by simp)).1
        exact absurd (by rw [this.1, this.2] : (r.symIdx, r.rtype) = (0, 8)) h1
    · rw [if_neg h1]
      push_neg at h1
      have hpair : r.symIdx = 0 ∧ r.rtype = 8 := by
        have := Prod.mk.injEq r.symIdx r.rtype 0 8 ▸ h1
        exact ⟨this.1, this.2⟩
      by_cases h2 : (ranges.find? fun rg =>
          decide (rg.1 ≤ r.offset) && decide (r.offset + 8 ≤ rg.2)).isNone = true
      · rw [if_pos h2]
        constructor
        · intro h
          exact Except.noConfusion h
        · intro h
          exact absurd ((h r (by simp)).2) ((find_range_isNone ranges r).mp h2)
      · rw [if_neg h2]
        rw [ih]
        constructor
        · intro h
          intro x hx
          rcases List.mem_cons.mp hx with hx | hx
          · subst hx
            refine ⟨hpair, ?_⟩
            by_contra hc
            exact h2 ((find_range_isNone ranges x).mpr hc)
          · exact h x hx
        · intro h x hx
          exact h x (by simp [hx])

theorem checkRelaList_err (ranges : List (Nat × Nat)) (relas : List Rela) (e : Error)
    (h : checkRelaList ranges relas = .error e) :
    (∃ r ∈ relas, e = .RelocationInvalid r.symIdx r.rtype ∧ (r.symIdx, r.rtype) ≠ (0, 8)) ∨
    (∃ r ∈ relas, e = .RelocationOutsideWritableSegment r.offset ∧ r.symIdx = 0 ∧ r.rtype = 8 ∧
      ¬ ∃ rg ∈ ranges, rg.1 ≤ r.offset ∧ r.offset + 8 ≤ rg.2) := by
  induction relas with
  | nil => exact Except.noConfusion h
  | cons r rest ih =>
    rw [checkRelaList] at h
    by_cases h1 : (r.symIdx, r.rtype) ≠ (0, 8)
    · rw [if_pos h1] at h
      injection h with h'
      exact Or.inl ⟨r, by simp, h'.symm, h1⟩
    · rw [if_neg h1] at h
      push_neg at h1
      have hpair : r.symIdx = 0 ∧ r.rtype = 8 := by
        have := Prod.mk.injEq r.symIdx r.rtype 0 8 ▸ h1
        exact ⟨this.1, this.2⟩
      by_cases h2 : (ranges.find? fun rg =>
          decide (rg.1 ≤ r.offset) && decide (r.offset + 8 ≤ rg.2)).isNone = true
      · rw [if_pos h2] at h
        injection h with h'
        exact Or.inr ⟨r, by simp, h'.symm, hpair.1, hpair.2,
          (find_range_isNone ranges r).mp h2⟩
      · rw [if_neg h2] at h
        rcases ih h with ⟨x, hx, hrest⟩ | ⟨x, hx, hrest⟩
        · exact Or.inl ⟨x, by simp [hx], hrest⟩
        · exact Or.inr ⟨x, by simp [hx], hrest⟩

theorem checkSectionsLoop_ok (ranges : List (Nat × Nat)) (sections : List Section) :
    ∀ count, (∀ sec ∈ sections, checkRelaList ranges (relasOf sec) = .ok ()) →
      checkSectionsLoop ranges count sections
        = .ok (count + (sections.map fun s => (relasOf s).length).sum) := by
  induction sections with
  | nil =>
    intro count h
    simp [checkSectionsLoop]
  | cons sec rest ih =>
    intro count h
    rw [checkSectionsLoop]
    simp only [h sec (by simp)]
    rw [ih _ fun s hs => h s (by simp [hs])]
    congr 1
    simp only [List.map_cons, List.sum_cons]
    omega

theorem checkSectionsLoop_ok_inv (ranges : List (Nat × Nat)) (sections : List Section) :
    ∀ count n, checkSectionsLoop ranges count sections = .ok n →
      (∀ sec ∈ sections, checkRelaList ranges (relasOf sec) = .ok ()) ∧
      n = count + (sections.map fun s => (relasOf s).length).sum := by
  induction sections with
  | nil =>
    intro count n h
    rw [checkSectionsLoop] at h
    injection h with h'
    subst h'
    simp
  | cons sec rest ih =>
    intro count n h
    rw [checkSectionsLoop] at h
    rcases hc : checkRelaList ranges (relasOf sec) with e | u <;> simp only [hc] at h
    · exact Except.noConfusion h
    · obtain ⟨hall, hn⟩ := ih _ _ h
      cases u
      refine ⟨?_, ?_⟩
      · intro s hs
        rcases List.mem_cons.mp hs with hs | hs
        · subst hs; exact hc
        · exact hall s hs
      · simp only [List.map_cons, List.sum_cons]
        omega

theorem checkSectionsLoop_err (ranges : List (Nat × Nat)) (sections : List Section) :
    ∀ count e, checkSectionsLoop ranges count sections = .error e →
      ∃ sec ∈ sections, checkRelaList ranges (relasOf sec) = .error e := by
  induction sections with
  | nil =>
    intro count e h
    exact Except.noConfusion h
  | cons sec rest ih =>
    intro count e h
    rw [checkSectionsLoop] at h
    rcases hc : checkRelaList ranges (relasOf sec) with e' | u <;> simp only [hc] at h
    · injection h with h'
      subst h'
      exact ⟨sec, by simp, hc⟩
    · obtain ⟨s, hs, hrest⟩ := ih _ _ h
      exact ⟨s, by simp [hs], hrest⟩

/-- C5: `check_relocs` returns Ok iff every entry of every RELA-table section
has symbol-table index 0 and type 8 (R_X86_64_RELATIVE) and its 8-byte range
lies inside the virtual range of some writable loadable segment, and the total
entry count equals DT_RELACOUNT's value (0 when the pair is absent).  When the
entries are all valid but the count differs it fails with
RelocationInvalidCount{expected, actual}; a RelocationInvalid or
RelocationOutsideWritableSegment failure always identifies an offending
entry of the respective kind. -/
theorem check_relocs_claim (elf : ElfFile) (dyn : Option DynamicPair) :
    (check_relocs elf dyn = .ok () ↔
      (∀ sec ∈ elf.sections, ∀ r ∈ relasOf sec, relaValid elf.phdrs r)
      ∧ totalRelas elf = relocTarget dyn)
    ∧ ((∀ sec ∈ elf.sections, ∀ r ∈ relasOf sec, relaValid elf.phdrs r) →
        totalRelas elf ≠ relocTarget dyn →
        check_relocs elf dyn = .error (.RelocationInvalidCount (relocTarget dyn) (totalRelas elf)))
    ∧ (∀ s t, check_relocs elf dyn = .error (.RelocationInvalid s t) →
        (s, t) ≠ (0, 8) ∧ ∃ sec ∈ elf.sections, ∃ r ∈ relasOf sec, r.symIdx = s ∧ r.rtype = t)
    ∧ (∀ off, check_relocs elf dyn = .error (.RelocationOutsideWritableSegment off) →
        ∃ sec ∈ elf.sections, ∃ r ∈ relasOf sec, r.offset = off ∧ r.symIdx = 0 ∧ r.rtype = 8 ∧
          ¬ ∃ ph ∈ elf.phdrs, ph.ptype = PhType.load ∧ ph.flags &&& 2 = 2 ∧
            ph.vaddr ≤ off ∧ off + 8 ≤ ph.vaddr + ph.memSize) := by
  have hvalid : ∀ sec : Section, (checkRelaList (writableRanges elf.phdrs) (relasOf sec) = .ok ()
      ↔ ∀ r ∈ relasOf sec, relaValid elf.phdrs r) := by
    intro sec
    rw [checkRelaList_ok_iff]
    constructor
    · intro h r hr
      obtain ⟨h1, h2⟩ := h r hr
      exact ⟨h1, (exists_range_iff elf.phdrs r).mp h2⟩
    · intro h r hr
      obtain ⟨h1, h2⟩ := h r hr
      exact ⟨h1, (exists_range_iff elf.phdrs r).mpr h2⟩
  refine ⟨?_, ?_, ?_, ?_⟩
  · constructor
    · intro h
      rw [check_relocs] at h
      rcases hl : checkSectionsLoop (writableRanges elf.phdrs) 0 elf.sections with e | count <;>
        simp only [hl] at h
      · exact Except.noConfusion h
      obtain ⟨hall, hcount⟩ := checkSectionsLoop_ok_inv _ _ _ _ hl
      split at h
      · exact Except.noConfusion h
      · next hc =>
        refine ⟨fun sec hsec => (hvalid sec).mp (hall sec hsec), ?_⟩
        have htot : count = totalRelas elf := by
          rw [hcount, Nat.zero_add]
          rfl
        rw [← htot]
        have hrt : (Option.map (fun d => d.relacount.val) dyn).getD 0 = relocTarget dyn := rfl
        rw [hrt] at hc
        omega
    · rintro ⟨hall, hcount⟩
      rw [check_relocs]
      have hl := checkSectionsLoop_ok (writableRanges elf.phdrs) elf.sections 0
        fun sec hsec => (hvalid sec).mpr (hall sec hsec)
      simp only [hl]
      have hne : ¬(0 + (List.map (fun s => (relasOf s).length) elf.sections).sum
          ≠ (Option.map (fun d => d.relacount.val) dyn).getD 0) := by
        rw [Nat.zero_add]
        intro hc
        exact hc hcount
      rw [if_neg hne]
  · intro hall hne
    rw [check_relocs]
    have hl := checkSectionsLoop_ok (writableRanges elf.phdrs) elf.sections 0
      fun sec hsec => (hvalid sec).mpr (hall sec hsec)
    simp only [hl]
    have hc : 0 + (List.map (fun s => (relasOf s).length) elf.sections).sum
        ≠ (Option.map (fun d => d.relacount.val) dyn).getD 0 := by
      rw [Nat.zero_add]
      exact hne
    rw [if_pos hc, Nat.zero_add]
    rfl
  · intro s t h
    rw [check_relocs] at h
    rcases hl : checkSectionsLoop (writableRanges elf.phdrs) 0 elf.sections with e | count <;>
      simp only [hl] at h
    · injection h with h'
      subst h'
      obtain ⟨sec, hsec, hrel⟩ := checkSectionsLoop_err _ _ _ _ hl
      rcases checkRelaList_err _ _ _ hrel with ⟨r, hr, he, hne⟩ | ⟨r, hr, he, _⟩
      · injection he with h1 h2
        refine ⟨by rw [h1, h2]; exact hne, sec, hsec, r, hr, h1.symm, h2.symm⟩
      · exact Error.noConfusion he
    · split at h
      · injection h with h'
        exact Error.noConfusion h'
      · exact Except.noConfusion h
  · intro off h
    rw [check_relocs] at h
    rcases hl : checkSectionsLoop (writableRanges elf.phdrs) 0 elf.sections with e | count <;>
      simp only [hl] at h
    · injection h with h'
      subst h'
      obtain ⟨sec, hsec, hrel⟩ := checkSectionsLoop_err _ _ _ _ hl
      rcases checkRelaList_err _ _ _ hrel with ⟨r, hr, he, _⟩ | ⟨r, hr, he, h1, h2, h3⟩
      · exact Error.noConfusion he
      · injection he with h4
        subst h4
        exact ⟨sec, hsec, r, hr, rfl, h1, h2,
          fun hc => h3 ((exists_range_iff elf.phdrs r).mpr hc)⟩
    · split at h
      · injection h with h'
        exact Error.noConfusion h'
      · exact Except.noConfusion h

/-- Witness for C5: one valid RELA entry but DT_RELACOUNT = 2 yields
RelocationInvalidCount with expected 2, actual 1. -/
theorem check_relocs_claim_witness :
    check_relocs relocElf (some relocPairTwo)
      = .error (.RelocationInvalidCount (relocTarget (some relocPairTwo)) (totalRelas relocElf)) :=
  (check_relocs_claim relocElf (some relocPairTwo)).2.1
    (by intro sec hsec r hr
        simp only [relocElf, List.mem_singleton] at hsec
        subst hsec
        simp only [relasOf, List.mem_singleton] at hr
        subst hr
        exact ⟨⟨rfl, rfl⟩, relocPh, by simp [relocElf], rfl, rfl, by decide, by decide⟩)
    (by decide)

/- ===================== Claim C7 ===================== -/

/-- Whether `check_dynamic`'s match treats a tag specially (anything not
handled falls to the wildcard arm and is ignored). -/
def dynTagHandled : DynTag → Bool
  | .pltRelSize => true
  | .pltRel => true
  | .jmpRel => true
  | .initTag => true
  | .initArray => true
  | .initArraySize => true
  | .finiTag => true
  | .finiArray => true
  | .finiArraySize => true
  | .rel => true
  | .relSize => true
  | .relEnt => true
  | .rela => true
  | .osSpecific n => n == 0x6ffffff9 || n == 0x6ffffffa
  | .other _ => false

/-- C7: `check_dynamic` locates the first PT_DYNAMIC segment (failing
DynamicSectionNotFound / DynamicSectionNotInPtDynamicSegment as appropriate)
and classifies every entry: PLT/GOT tags, init tags, fini tags and
implicit-relocation tags (REL, RELSZ, RELENT, DT_RELCOUNT = OS-specific
0x6ffffffa) each fail with their error; DT_RELA and DT_RELACOUNT (OS-specific
0x6ffffff9) are recorded, a second occurrence failing as a duplicate; every
other tag is ignored.  After the walk, the pair must be both present
(returned), or both absent (none); a mismatch fails with the matching error. -/
theorem check_dynamic_claim (elf : ElfFile) :
    (elf.phdrs.find? (fun ph => ph.ptype = PhType.dynamic) = none →
      check_dynamic elf = .error .DynamicSectionNotFound)
    ∧ (∀ ph, elf.phdrs.find? (fun ph => ph.ptype = PhType.dynamic) = some ph →
        (∀ entries, ph.data ≠ .dynamic64 entries) →
        check_dynamic elf = .error .DynamicSectionNotInPtDynamicSegment)
    ∧ (∀ (ent : DynEntry) rest r rc,
        (ent.tag = .pltRelSize ∨ ent.tag = .pltRel ∨ ent.tag = .jmpRel) →
        checkDynLoop (ent :: rest) r rc = .error .DynEntryUnsupportedPLTGOT)
    ∧ (∀ (ent : DynEntry) rest r rc,
        (ent.tag = .initTag ∨ ent.tag = .initArray ∨ ent.tag = .initArraySize) →
        checkDynLoop (ent :: rest) r rc = .error .DynEntryUnsupportedInitFunction)
    ∧ (∀ (ent : DynEntry) rest r rc,
        (ent.tag = .finiTag ∨ ent.tag = .finiArray ∨ ent.tag = .finiArraySize) →
        checkDynLoop (ent :: rest) r rc = .error .DynEntryUnsupportedFiniFunction)
    ∧ (∀ (ent : DynEntry) rest r rc,
        (ent.tag = .rel ∨ ent.tag = .relSize ∨ ent.tag = .relEnt ∨
          ent.tag = .osSpecific 0x6ffffffa) →
        checkDynLoop (ent :: rest) r rc = .error .DynEntryUnsupportedImplicitReloc)
    ∧ (∀ (ent : DynEntry) rest x rc, ent.tag = .rela →
        checkDynLoop (ent :: rest) (some x) rc = .error .DynEntryDuplicateDtRela)
    ∧ (∀ (ent : DynEntry) rest r x, ent.tag = .osSpecific 0x6ffffff9 →
        checkDynLoop (ent :: rest) r (some x) = .error .DynEntryDuplicateDtRelacount)
    ∧ (∀ (ent : DynEntry) rest r rc, dynTagHandled ent.tag = false →
        checkDynLoop (ent :: rest) r rc = checkDynLoop rest r rc)
    ∧ (∀ ph dyns, elf.phdrs.find? (fun ph => ph.ptype = PhType.dynamic) = some ph →
        ph.data = .dynamic64 dyns →
        (∀ r rc, checkDynLoop dyns none none = .ok (some r, some rc) →
          check_dynamic elf = .ok (some ⟨r, rc⟩))
        ∧ (checkDynLoop dyns none none = .ok (none, none) → check_dynamic elf = .ok none)
        ∧ (∀ r, checkDynLoop dyns none none = .ok (some r, none) →
            check_dynamic elf = .error .DynEntryFoundDtRelaButNotDtRelacount)
        ∧ (∀ rc, checkDynLoop dyns none none = .ok (none, some rc) →
            check_dynamic elf = .error .DynEntryFoundDtRelacountButNotDtRela)) := by
  refine ⟨?_, ?_, ?_, ?_, ?_, ?_, ?_, ?_, ?_, ?_⟩
  · intro hfind
    rw [check_dynamic, hfind]
  · intro ph hfind hdata
    rw [check_dynamic, hfind]
    rcases hd : ph.data with b | entries | u
    · simp only [hd]
    · exact absurd hd (hdata entries)
    · simp only [hd]
  · rintro ⟨tag, v⟩ rest r rc (h | h | h) <;> subst h <;> rfl
  · rintro ⟨tag, v⟩ rest r rc (h | h | h) <;> subst h <;> rfl
  · rintro ⟨tag, v⟩ rest r rc (h | h | h) <;> subst h <;> rfl
  · rintro ⟨tag, v⟩ rest r rc (h | h | h | h) <;> subst h <;> rfl
  · rintro ⟨tag, v⟩ rest x rc h
    subst h
    rfl
  · rintro ⟨tag, v⟩ rest r x h
    subst h
    rfl
  · rintro ⟨tag, v⟩ rest r rc h
    cases tag
    case other n => rfl
    case osSpecific n =>
      by_cases h9 : n = 0x6ffffff9
      · subst h9
        simp [dynTagHandled] at h
      by_cases h10 : n = 0x6ffffffa
      · subst h10
        simp [dynTagHandled] at h
      simp only [checkDynLoop]
      rw [if_neg h10, if_neg h9]
    all_goals simp [dynTagHandled] at h
  · intro ph dyns hfind hdata
    refine ⟨?_, ?_, ?_, ?_⟩
    · intro r rc hloop
      rw [check_dynamic, hfind]
      simp only [hdata, hloop]
    · intro hloop
      rw [check_dynamic, hfind]
      simp only [hdata, hloop]
    · intro r hloop
      rw [check_dynamic, hfind]
      simp only [hdata, hloop]
    · intro rc hloop
      rw [check_dynamic, hfind]
      simp only [hdata, hloop]

/-- Witness for C7: the empty ELF has no PT_DYNAMIC segment. -/
theorem check_dynamic_claim_witness :
    check_dynamic elfEmpty = .error .DynamicSectionNotFound :=
  (check_dynamic_claim elfEmpty).1 (by decide)

/- ===================== Claims C6 and C10: symbol-walk lemmas ===================== -/

theorem readSymsLoop_undef (y : DynSym) (rest : List DynSym) (st : SymState)
    (h : y.shndx = SHN_UNDEF) :
    readSymsLoop (y :: rest) st = .error (.DynamicSymbolUndefined y.name) := by
  simp only [readSymsLoop, if_pos h]

theorem readSymsLoop_skip (y : DynSym) (rest : List DynSym) (st : SymState)
    (h1 : y.shndx ≠ SHN_UNDEF) (h2 : y.name ∉ sixNames) :
    readSymsLoop (y :: rest) st = readSymsLoop rest st := by
  simp only [sixNames, List.mem_cons, List.not_mem_nil, or_false, not_or] at h2
  obtain ⟨n1, n2, n3, n4, n5, n6⟩ := h2
  simp only [readSymsLoop, if_neg h1, if_neg n1, if_neg n2, if_neg n3, if_neg n4,
    if_neg n5, if_neg n6]

theorem readSymsLoop_hit (y : DynSym) (rest : List DynSym) (st : SymState)
    (h1 : y.shndx ≠ SHN_UNDEF) (h2 : y.name ∈ sixNames) :
    readSymsLoop (y :: rest) st =
      match stGet st y.name with
      | some _ => .error (.DynamicSymbolDuplicate y.name)
      | none => readSymsLoop rest (stSet st y.name y) := by
  simp only [sixNames, List.mem_cons, List.not_mem_nil, or_false] at h2
  rcases h2 with h | h | h | h | h | h <;>
    simp only [readSymsLoop, stGet, stSet, h, if_neg h1] <;> simp

theorem countName_cons (y : DynSym) (l : List DynSym) (n : String) :
    countName (y :: l) n = countName l n + (if y.name = n then 1 else 0) := by
  by_cases h : y.name = n <;> simp [countName, List.filter_cons, h]

theorem countName_nil (n : String) : countName [] n = 0 := rfl

theorem stGet_empty (n : String) : stGet {} n = none := by
  rw [stGet]
  split_ifs <;> rfl

theorem stGet_set_same (st : SymState) (n : String) (y : DynSym) (hn : n ∈ sixNames) :
    stGet (stSet st n y) n = some y := by
  simp only [sixNames, List.mem_cons, List.not_mem_nil, or_false] at hn
  rcases hn with h | h | h | h | h | h <;> subst h <;> simp [stGet, stSet]

theorem stGet_set_other (st : SymState) (n m : String) (y : DynSym) (hm : m ≠ n) :
    stGet (stSet st n y) m = stGet st m := by
  by_cases hn : n ∈ sixNames
  · simp only [sixNames, List.mem_cons, List.not_mem_nil, or_false] at hn
    rcases hn with h | h | h | h | h | h <;> subst h <;>
      simp [stGet, stSet, hm]
  · have : stSet st n y = st := by
      simp only [sixNames, List.mem_cons, List.not_mem_nil, or_false, not_or] at hn
      obtain ⟨n1, n2, n3, n4, n5, n6⟩ := hn
      simp [stSet, n1, n2, n3, n4, n5, n6]
    rw [this]

theorem stUpdateAll_nil (st : SymState) : stUpdateAll st [] = st := by
  simp [stUpdateAll]

theorem stUpdateAll_cons_six (st : SymState) (y : DynSym) (rest : List DynSym)
    (hn : y.name ∈ sixNames) (hg : stGet st y.name = none) :
    stUpdateAll st (y :: rest) = stUpdateAll (stSet st y.name y) rest := by
  simp only [sixNames, List.mem_cons, List.not_mem_nil, or_false] at hn
  rcases hn with h | h | h | h | h | h <;>
    · rw [stGet] at hg
      simp only [h] at hg ⊢
      simp at hg
      simp [stUpdateAll, stSet, List.find?_cons, hg, h]

theorem stUpdateAll_cons_nonsix (st : SymState) (y : DynSym) (rest : List DynSym)
    (hn : y.name ∉ sixNames) :
    stUpdateAll st (y :: rest) = stUpdateAll st rest := by
  simp only [sixNames, List.mem_cons, List.not_mem_nil, or_false, not_or] at hn
  obtain ⟨n1, n2, n3, n4, n5, n6⟩ := hn
  simp [stUpdateAll, List.find?_cons, n1, n2, n3, n4, n5, n6]

theorem readSymsLoop_ok (syms : List DynSym) : ∀ st : SymState,
    (∀ y ∈ syms, y.shndx ≠ SHN_UNDEF) →
    (∀ n ∈ sixNames, countName syms n + (if (stGet st n).isSome then 1 else 0) ≤ 1) →
    readSymsLoop syms st = .ok (stUpdateAll st syms) := by
  induction syms with
  | nil =>
    intro st h1 h2
    rw [stUpdateAll_nil]
    rfl
  | cons y rest ih =>
    intro st h1 h2
    have hy : y.shndx ≠ SHN_UNDEF := h1 y (by simp)
    by_cases hn : y.name ∈ sixNames
    · have hcnt := h2 y.name hn
      have hone : 1 ≤ countName (y :: rest) y.name := by
        rw [countName_cons, if_pos rfl]
        omega
      have hg : stGet st y.name = none := by
        rcases hgg : stGet st y.name with _ | v
        · rfl
        · rw [hgg] at hcnt
          simp at hcnt
          omega
      rw [readSymsLoop_hit y rest st hy hn, hg]
      rw [stUpdateAll_cons_six st y rest hn hg]
      apply ih
      · exact fun z hz => h1 z (by simp [hz])
      · intro n hnn
        by_cases hne : n = y.name
        · subst hne
          rw [stGet_set_same st y.name y hnn]
          have := h2 y.name hnn
          rw [countName_cons, if_pos rfl] at this
          rw [hg] at this
          simp at this ⊢
          omega
        · rw [stGet_set_other st y.name n y hne]
          have := h2 n hnn
          rw [countName_cons, if_neg (fun hc => hne hc.symm)] at this
          omega
    · rw [readSymsLoop_skip y rest st hy hn]
      rw [stUpdateAll_cons_nonsix st y rest hn]
      apply ih
      · exact fun z hz => h1 z (by simp [hz])
      · intro n hnn
        have := h2 n hnn
        have hne : y.name ≠ n := fun hc => hn (hc ▸ hnn)
        rw [countName_cons, if_neg hne] at this
        omega

theorem readSymsLoop_ok_inv (syms : List DynSym) : ∀ st st' : SymState,
    readSymsLoop syms st = .ok st' →
    (∀ y ∈ syms, y.shndx ≠ SHN_UNDEF)
    ∧ (∀ n ∈ sixNames, countName syms n + (if (stGet st n).isSome then 1 else 0) ≤ 1)
    ∧ st' = stUpdateAll st syms := by
  induction syms with
  | nil =>
    intro st st' h
    injection h with h'
    subst h'
    refine ⟨by simp, ?_, (stUpdateAll_nil st).symm⟩
    intro n hn
    rw [countName_nil]
    split <;> omega
  | cons y rest ih =>
    intro st st' h
    by_cases hy : y.shndx = SHN_UNDEF
    · rw [readSymsLoop_undef y rest st hy] at h
      exact Except.noConfusion h
    by_cases hn : y.name ∈ sixNames
    · rw [readSymsLoop_hit y rest st hy hn] at h
      rcases hg : stGet st y.name with _ | v
      · rw [hg] at h
        obtain ⟨ha, hb, hc⟩ := ih (stSet st y.name y) st' h
        refine ⟨?_, ?_, ?_⟩
        · intro z hz
          rcases List.mem_cons.mp hz with hz | hz
          · subst hz; exact hy
          · exact ha z hz
        · intro n hnn
          by_cases hne : n = y.name
          · subst hne
            have := hb y.name hnn
            rw [stGet_set_same st y.name y hnn] at this
            simp at this
            rw [countName_cons, if_pos rfl, hg]
            simp
            omega
          · have := hb n hnn
            rw [stGet_set_other st y.name n y hne] at this
            rw [countName_cons, if_neg (fun hc => hne hc.symm)]
            omega
        · rw [hc, stUpdateAll_cons_six st y rest hn hg]
      · rw [hg] at h
        exact Except.noConfusion h
    · rw [readSymsLoop_skip y rest st hy hn] at h
      obtain ⟨ha, hb, hc⟩ := ih st st' h
      refine ⟨?_, ?_, ?_⟩
      · intro z hz
        rcases List.mem_cons.mp hz with hz | hz
        · subst hz; exact hy
        · exact ha z hz
      · intro n hnn
        have := hb n hnn
        have hne : y.name ≠ n := fun hc => hn (hc ▸ hnn)
        rw [countName_cons, if_neg hne]
        omega
      · rw [hc, stUpdateAll_cons_nonsix st y rest hn]

theorem readSymsLoop_err_undef (syms : List DynSym) : ∀ (st : SymState) (n : String),
    readSymsLoop syms st = .error (.DynamicSymbolUndefined n) →
    ∃ y ∈ syms, y.name = n ∧ y.shndx = SHN_UNDEF := by
  induction syms with
  | nil =>
    intro st n h
    exact Except.noConfusion h
  | cons y rest ih =>
    intro st n h
    by_cases hy : y.shndx = SHN_UNDEF
    · rw [readSymsLoop_undef y rest st hy] at h
      injection h with h'
      injection h' with h''
      exact ⟨y, by simp, h'', hy⟩
    by_cases hn : y.name ∈ sixNames
    · rw [readSymsLoop_hit y rest st hy hn] at h
      rcases hg : stGet st y.name with _ | v <;> rw [hg] at h
      · obtain ⟨z, hz, hzz⟩ := ih _ n h
        exact ⟨z, by simp [hz], hzz⟩
      · injection h with h'
        exact Error.noConfusion h'
    · rw [readSymsLoop_skip y rest st hy hn] at h
      obtain ⟨z, hz, hzz⟩ := ih _ n h
      exact ⟨z, by simp [hz], hzz⟩

theorem readSymsLoop_err_dup (syms : List DynSym) : ∀ (st : SymState) (n : String),
    readSymsLoop syms st = .error (.DynamicSymbolDuplicate n) →
    n ∈ sixNames ∧
      2 ≤ countName syms n + (if (stGet st n).isSome then 1 else 0) := by
  induction syms with
  | nil =>
    intro st n h
    exact Except.noConfusion h
  | cons y rest ih =>
    intro st n h
    by_cases hy : y.shndx = SHN_UNDEF
    · rw [readSymsLoop_undef y rest st hy] at h
      injection h with h'
      exact Error.noConfusion h'
    by_cases hn : y.name ∈ sixNames
    · rw [readSymsLoop_hit y rest st hy hn] at h
      rcases hg : stGet st y.name with _ | v <;> rw [hg] at h
      · obtain ⟨hsix, hcnt⟩ := ih _ n h
        refine ⟨hsix, ?_⟩
        by_cases hne : n = y.name
        · subst hne
          rw [stGet_set_same st y.name y hsix] at hcnt
          rw [countName_cons, if_pos rfl, hg]
          simp at hcnt ⊢
          omega
        · rw [stGet_set_other st y.name n y hne] at hcnt
          rw [countName_cons, if_neg (fun hc => hne hc.symm)]
          omega
      · injection h with h'
        injection h' with h''
        subst h''
        refine ⟨hn, ?_⟩
        rw [countName_cons, if_pos rfl, hg]
        simp
    · rw [readSymsLoop_skip y rest st hy hn] at h
      obtain ⟨hsix, hcnt⟩ := ih _ n h
      refine ⟨hsix, ?_⟩
      have hne : y.name ≠ n := fun hc => hn (hc ▸ hsix)
      rw [countName_cons, if_neg hne]
      omega

theorem stGet_updateAll_empty (syms : List DynSym) (n : String) (hn : n ∈ sixNames) :
    stGet (stUpdateAll {} syms) n = syms.find? fun y => y.name = n := by
  simp only [sixNames, List.mem_cons, List.not_mem_nil, or_false] at hn
  rcases hn with h | h | h | h | h | h <;> subst h <;> simp [stGet, stUpdateAll]

theorem mem_missingList (st : SymState) (n : String) :
    n ∈ missingList st ↔ n ∈ sixNames ∧ (stGet st n).isNone := by
  by_cases h1 : n = "sgx_entry"
  · subst h1; simp [missingList, stGet, sixNames]
  by_cases h2 : n = "HEAP_BASE"
  · subst h2; simp [missingList, stGet, sixNames]
  by_cases h3 : n = "HEAP_SIZE"
  · subst h3; simp [missingList, stGet, sixNames]
  by_cases h4 : n = "RELA"
  · subst h4; simp [missingList, stGet, sixNames]
  by_cases h5 : n = "RELACOUNT"
  · subst h5; simp [missingList, stGet, sixNames]
  by_cases h6 : n = "ENCLAVE_SIZE"
  · subst h6; simp [missingList, stGet, sixNames]
  simp [missingList, stGet, sixNames, h1, h2, h3, h4, h5, h6]

theorem countName_pos_of_find (l : List DynSym) (n : String) (y : DynSym)
    (h : (l.find? fun z => decide (z.name = n)) = some y) : 1 ≤ countName l n := by
  have hmem : y ∈ l := List.mem_of_find?_eq_some h
  have hname : y.name = n := by
    have := List.find?_some h
    exact of_decide_eq_true this
  have : y ∈ l.filter fun z => decide (z.name = n) :=
    List.mem_filter.mpr ⟨hmem, by simp [hname]⟩
  have := List.length_pos.mpr (List.ne_nil_of_mem this)
  simpa [countName] using this

theorem find?_eq_none_iff_count (l : List DynSym) (n : String) :
    (l.find? fun z => decide (z.name = n)) = none ↔ countName l n = 0 := by
  rw [List.find?_eq_none]
  constructor
  · intro h
    rw [countName, List.length_eq_zero]
    rw [List.filter_eq_nil]
    intro a ha
    simpa using h a ha
  · intro h a ha
    rw [countName, List.length_eq_zero, List.filter_eq_nil] at h
    simpa using h a ha

theorem countName_one_find (l : List DynSym) (n : String) (h : countName l n = 1) :
    ∃ y, (l.find? fun z => decide (z.name = n)) = some y ∧ y ∈ l ∧ y.name = n := by
  rcases hf : l.find? fun z => decide (z.name = n) with _ | y
  · rw [find?_eq_none_iff_count] at hf
    omega
  · refine ⟨y, hf, List.mem_of_find?_eq_some hf, ?_⟩
    have hp := List.find?_some hf
    exact of_decide_eq_true hp

theorem read_syms_ok_iff (syms : List DynSym) (s : Symbols) :
    read_syms syms = .ok s ↔
      (∀ y ∈ syms.drop 1, y.shndx ≠ SHN_UNDEF)
      ∧ (∀ n ∈ sixNames, countName (syms.drop 1) n = 1)
      ∧ ((syms.drop 1).find? fun y => decide (y.name = "sgx_entry")) = some s.sgx_entry
      ∧ ((syms.drop 1).find? fun y => decide (y.name = "HEAP_BASE")) = some s.HEAP_BASE
      ∧ ((syms.drop 1).find? fun y => decide (y.name = "HEAP_SIZE")) = some s.HEAP_SIZE
      ∧ ((syms.drop 1).find? fun y => decide (y.name = "RELA")) = some s.RELA
      ∧ ((syms.drop 1).find? fun y => decide (y.name = "RELACOUNT")) = some s.RELACOUNT
      ∧ ((syms.drop 1).find? fun y => decide (y.name = "ENCLAVE_SIZE")) = some s.ENCLAVE_SIZE := by
  constructor
  · intro h
    rw [read_syms] at h
    rcases hloop : readSymsLoop (syms.drop 1) {} with e | st' <;> simp only [hloop] at h
    · exact Except.noConfusion h
    obtain ⟨ha, hb, hc⟩ := readSymsLoop_ok_inv _ _ _ hloop
    subst hc
    split at h
    · next hall =>
      injection h with h'
      subst h'
      obtain ⟨ha1, ha2, ha3, ha4, ha5, ha6⟩ := hall
      simp only [stUpdateAll, Option.none_or] at ha1 ha2 ha3 ha4 ha5 ha6
      refine ⟨ha, ?_, ?_, ?_, ?_, ?_, ?_, ?_⟩
      · intro n hn
        have hle := hb n hn
        rw [stGet_empty] at hle
        simp only [Option.isSome_none, Bool.false_eq_true, if_false] at hle
        have hge : 1 ≤ countName (syms.drop 1) n := by
          simp only [sixNames, List.mem_cons, List.not_mem_nil, or_false] at hn
          rcases hn with h | h | h | h | h | h <;> subst h
          · obtain ⟨y, hy⟩ := Option.isSome_iff_exists.mp ha1
            exact countName_pos_of_find _ _ y hy
          · obtain ⟨y, hy⟩ := Option.isSome_iff_exists.mp ha2
            exact countName_pos_of_find _ _ y hy
          · obtain ⟨y, hy⟩ := Option.isSome_iff_exists.mp ha3
            exact countName_pos_of_find _ _ y hy
          · obtain ⟨y, hy⟩ := Option.isSome_iff_exists.mp ha4
            exact countName_pos_of_find _ _ y hy
          · obtain ⟨y, hy⟩ := Option.isSome_iff_exists.mp ha5
            exact countName_pos_of_find _ _ y hy
          · obtain ⟨y, hy⟩ := Option.isSome_iff_exists.mp ha6
            exact countName_pos_of_find _ _ y hy
        omega
      all_goals
        simp only [stUpdateAll, Option.none_or]
        exact (Option.some_get _).symm
    · exact Except.noConfusion h
  · intro hh
    obtain ⟨ha, hb, h1, h2, h3, h4, h5, h6⟩ := hh
    rw [read_syms]
    have hcond : ∀ n ∈ sixNames,
        countName (syms.drop 1) n + (if (stGet ({} : SymState) n).isSome then 1 else 0) ≤ 1 := by
      intro n hn
      rw [stGet_empty]
      simp only [Option.isSome_none, Bool.false_eq_true, if_false]
      have := hb n hn
      omega
    have hloop := readSymsLoop_ok (syms.drop 1) {} ha hcond
    simp only [hloop]
    have hall : (stUpdateAll {} (syms.drop 1)).sgx_entry.isSome = true
        ∧ (stUpdateAll {} (syms.drop 1)).HEAP_BASE.isSome = true
        ∧ (stUpdateAll {} (syms.drop 1)).HEAP_SIZE.isSome = true
        ∧ (stUpdateAll {} (syms.drop 1)).RELA.isSome = true
        ∧ (stUpdateAll {} (syms.drop 1)).RELACOUNT.isSome = true
        ∧ (stUpdateAll {} (syms.drop 1)).ENCLAVE_SIZE.isSome = true := by
      simp only [stUpdateAll, Option.none_or, h1, h2, h3, h4, h5, h6]
      simp
    rw [dif_pos hall]
    have e1 : (stUpdateAll {} (syms.drop 1)).sgx_entry = some s.sgx_entry := by
      simp only [stUpdateAll, Option.none_or]
      exact h1
    have e2 : (stUpdateAll {} (syms.drop 1)).HEAP_BASE = some s.HEAP_BASE := by
      simp only [stUpdateAll, Option.none_or]
      exact h2
    have e3 : (stUpdateAll {} (syms.drop 1)).HEAP_SIZE = some s.HEAP_SIZE := by
      simp only [stUpdateAll, Option.none_or]
      exact h3
    have e4 : (stUpdateAll {} (syms.drop 1)).RELA = some s.RELA := by
      simp only [stUpdateAll, Option.none_or]
      exact h4
    have e5 : (stUpdateAll {} (syms.drop 1)).RELACOUNT = some s.RELACOUNT := by
      simp only [stUpdateAll, Option.none_or]
      exact h5
    have e6 : (stUpdateAll {} (syms.drop 1)).ENCLAVE_SIZE = some s.ENCLAVE_SIZE := by
      simp only [stUpdateAll, Option.none_or]
      exact h6
    congr 1
    cases s
    simp only [Symbols.mk.injEq]
    exact ⟨Option.some.inj ((Option.some_get _).trans e1),
           Option.some.inj ((Option.some_get _).trans e2),
           Option.some.inj ((Option.some_get _).trans e3),
           Option.some.inj ((Option.some_get _).trans e4),
           Option.some.inj ((Option.some_get _).trans e5),
           Option.some.inj ((Option.some_get _).trans e6)⟩

theorem readSymsLoop_err_kinds (syms : List DynSym) : ∀ (st : SymState) (e : Error),
    readSymsLoop syms st = .error e →
    (∃ n, e = .DynamicSymbolUndefined n) ∨ (∃ n, e = .DynamicSymbolDuplicate n) := by
  induction syms with
  | nil =>
    intro st e h
    exact Except.noConfusion h
  | cons y rest ih =>
    intro st e h
    by_cases hy : y.shndx = SHN_UNDEF
    · rw [readSymsLoop_undef y rest st hy] at h
      injection h with h'
      exact Or.inl ⟨y.name, h'.symm⟩
    by_cases hn : y.name ∈ sixNames
    · rw [readSymsLoop_hit y rest st hy hn] at h
      rcases hg : stGet st y.name with _ | v <;> rw [hg] at h
      · exact ih _ _ h
      · injection h with h'
        exact Or.inr ⟨y.name, h'.symm⟩
    · rw [readSymsLoop_skip y rest st hy hn] at h
      exact ih _ _ h

theorem read_syms_err_undef (syms : List DynSym) (n : String)
    (h : read_syms syms = .error (.DynamicSymbolUndefined n)) :
    ∃ y ∈ syms.drop 1, y.name = n ∧ y.shndx = SHN_UNDEF := by
  rw [read_syms] at h
  rcases hloop : readSymsLoop (syms.drop 1) {} with e | st' <;> simp only [hloop] at h
  · injection h with h'
    subst h'
    exact readSymsLoop_err_undef _ _ _ hloop
  · split at h
    · exact Except.noConfusion h
    · injection h with h'
      exact Error.noConfusion h'

theorem read_syms_err_dup (syms : List DynSym) (n : String)
    (h : read_syms syms = .error (.DynamicSymbolDuplicate n)) :
    n ∈ sixNames ∧ 2 ≤ countName (syms.drop 1) n := by
  rw [read_syms] at h
  rcases hloop : readSymsLoop (syms.drop 1) {} with e | st' <;> simp only [hloop] at h
  · injection h with h'
    subst h'
    obtain ⟨hsix, hcnt⟩ := readSymsLoop_err_dup _ _ _ hloop
    rw [stGet_empty] at hcnt
    simp only [Option.isSome_none, Bool.false_eq_true, if_false] at hcnt
    exact ⟨hsix, by omega⟩
  · split at h
    · exact Except.noConfusion h
    · injection h with h'
      exact Error.noConfusion h'

theorem read_syms_err_missing (syms : List DynSym) (l : List String)
    (h : read_syms syms = .error (.DynamicSymbolMissing l)) :
    l ≠ [] ∧ (∀ y ∈ syms.drop 1, y.shndx ≠ SHN_UNDEF) ∧
      ∀ n, n ∈ l ↔ n ∈ sixNames ∧ countName (syms.drop 1) n = 0 := by
  rw [read_syms] at h
  rcases hloop : readSymsLoop (syms.drop 1) {} with e | st' <;> simp only [hloop] at h
  · injection h with h'
    subst h'
    rcases readSymsLoop_err_kinds _ _ _ hloop with ⟨m, hm⟩ | ⟨m, hm⟩ <;>
      exact Error.noConfusion hm
  · obtain ⟨ha, hb, hc⟩ := readSymsLoop_ok_inv _ _ _ hloop
    subst hc
    split at h
    · exact Except.noConfusion h
    · next hfail =>
      injection h with h'
      injection h' with h''
      subst h''
      have hmem : ∀ n, n ∈ missingList (stUpdateAll {} (syms.drop 1)) ↔
          n ∈ sixNames ∧ countName (syms.drop 1) n = 0 := by
        intro n
        rw [mem_missingList]
        constructor
        · rintro ⟨hsix, hnone⟩
          refine ⟨hsix, ?_⟩
          rw [stGet_updateAll_empty _ _ hsix] at hnone
          rw [← find?_eq_none_iff_count]
          exact Option.isNone_iff_eq_none.mp hnone
        · rintro ⟨hsix, hzero⟩
          refine ⟨hsix, ?_⟩
          rw [stGet_updateAll_empty _ _ hsix]
          rw [Option.isNone_iff_eq_none, find?_eq_none_iff_count]
          exact hzero
      refine ⟨?_, ha, hmem⟩
      simp only [not_and_or] at hfail
      have hex : ∃ n ∈ sixNames, (stGet (stUpdateAll {} (syms.drop 1)) n).isNone = true := by
        rcases hfail with hf | hf | hf | hf | hf | hf
        · exact ⟨"sgx_entry", by simp [sixNames], by simp [stGet]; simpa using hf⟩
        · exact ⟨"HEAP_BASE", by simp [sixNames], by simp [stGet]; simpa using hf⟩
        · exact ⟨"HEAP_SIZE", by simp [sixNames], by simp [stGet]; simpa using hf⟩
        · exact ⟨"RELA", by simp [sixNames], by simp [stGet]; simpa using hf⟩
        · exact ⟨"RELACOUNT", by simp [sixNames], by simp [stGet]; simpa using hf⟩
        · exact ⟨"ENCLAVE_SIZE", by simp [sixNames], by simp [stGet]; simpa using hf⟩
      obtain ⟨n, hsix, hnone⟩ := hex
      exact List.ne_nil_of_mem ((mem_missingList _ n).mpr ⟨hsix, hnone⟩)

theorem find?_eq_unique (l : List DynSym) (n : String) (y : DynSym)
    (hcnt : countName l n = 1) (hmem : y ∈ l) (hname : y.name = n) :
    (l.find? fun z => decide (z.name = n)) = some y := by
  obtain ⟨y0, hf, hm0, hn0⟩ := countName_one_find l n hcnt
  have h0 : y0 ∈ l.filter fun z => decide (z.name = n) :=
    List.mem_filter.mpr ⟨hm0, by simp [hn0]⟩
  have h1 : y ∈ l.filter fun z => decide (z.name = n) :=
    List.mem_filter.mpr ⟨hmem, by simp [hname]⟩
  obtain ⟨a, ha⟩ := List.length_eq_one.mp (by simpa [countName] using hcnt)
  rw [ha] at h0 h1
  simp only [List.mem_singleton] at h0 h1
  rw [hf, h0, h1]

/-- C6: `check_symbols` walks the `.dynsym` dynamic symbol table, skipping the
reserved first entry.  It fails DynamicSymbolTableNotFound when no `.dynsym`
section exists and DynamicSymbolTableNotInDynsymSection when its payload is
not a dynamic symbol table.  It succeeds exactly when every walked entry is
defined, each of the six required names occurs exactly once among the walked
entries, and each of the five data symbols has size exactly 8 (sgx_entry's
size unconstrained), returning the six named entries.  A
DynamicSymbolUndefined error names a walked entry with section index
SHN_UNDEF; a DynamicSymbolDuplicate error names a required name occurring at
least twice; a DynamicSymbolMissing error lists exactly the absent required
names; a DynamicSymbolIncorrectSize error names one of the five data symbols,
expects 8 and reports the actual size of the walked entry of that name. -/
theorem check_symbols_claim (elf : ElfFile) :
    (elf.sections.find? (fun s => decide (s.name = ".dynsym")) = none →
      check_symbols elf = .error .DynamicSymbolTableNotFound)
    ∧ (∀ sec, elf.sections.find? (fun s => decide (s.name = ".dynsym")) = some sec →
        (∀ syms, sec.data ≠ .dynSymbolTable64 syms) →
        check_symbols elf = .error .DynamicSymbolTableNotInDynsymSection)
    ∧ (∀ sec syms s, elf.sections.find? (fun s => decide (s.name = ".dynsym")) = some sec →
        sec.data = .dynSymbolTable64 syms →
        (check_symbols elf = .ok s ↔
          (∀ y ∈ syms.drop 1, y.shndx ≠ SHN_UNDEF)
          ∧ (∀ n ∈ sixNames, countName (syms.drop 1) n = 1)
          ∧ s.sgx_entry ∈ syms.drop 1 ∧ s.sgx_entry.name = "sgx_entry"
          ∧ s.HEAP_BASE ∈ syms.drop 1 ∧ s.HEAP_BASE.name = "HEAP_BASE"
          ∧ s.HEAP_SIZE ∈ syms.drop 1 ∧ s.HEAP_SIZE.name = "HEAP_SIZE"
          ∧ s.RELA ∈ syms.drop 1 ∧ s.RELA.name = "RELA"
          ∧ s.RELACOUNT ∈ syms.drop 1 ∧ s.RELACOUNT.name = "RELACOUNT"
          ∧ s.ENCLAVE_SIZE ∈ syms.drop 1 ∧ s.ENCLAVE_SIZE.name = "ENCLAVE_SIZE"
          ∧ s.HEAP_BASE.size = 8 ∧ s.HEAP_SIZE.size = 8 ∧ s.RELA.size = 8
          ∧ s.RELACOUNT.size = 8 ∧ s.ENCLAVE_SIZE.size = 8))
    ∧ (∀ sec syms n, elf.sections.find? (fun s => decide (s.name = ".dynsym")) = some sec →
        sec.data = .dynSymbolTable64 syms →
        check_symbols elf = .error (.DynamicSymbolUndefined n) →
        ∃ y ∈ syms.drop 1, y.name = n ∧ y.shndx = SHN_UNDEF)
    ∧ (∀ sec syms n, elf.sections.find? (fun s => decide (s.name = ".dynsym")) = some sec →
        sec.data = .dynSymbolTable64 syms →
        check_symbols elf = .error (.DynamicSymbolDuplicate n) →
        n ∈ sixNames ∧ 2 ≤ countName (syms.drop 1) n)
    ∧ (∀ sec syms l, elf.sections.find? (fun s => decide (s.name = ".dynsym")) = some sec →
        sec.data = .dynSymbolTable64 syms →
        check_symbols elf = .error (.DynamicSymbolMissing l) →
        l ≠ [] ∧ ∀ n, n ∈ l ↔ n ∈ sixNames ∧ countName (syms.drop 1) n = 0)
    ∧ (∀ sec syms n exp act,
        elf.sections.find? (fun s => decide (s.name = ".dynsym")) = some sec →
        sec.data = .dynSymbolTable64 syms →
        check_symbols elf = .error (.DynamicSymbolIncorrectSize n exp act) →
        exp = 8 ∧ act ≠ 8 ∧
          n ∈ ["HEAP_BASE", "HEAP_SIZE", "RELA", "RELACOUNT", "ENCLAVE_SIZE"] ∧
          ∃ y ∈ syms.drop 1, y.name = n ∧ y.size = act) := by
  refine ⟨?_, ?_, ?_, ?_, ?_, ?_, ?_⟩
  · intro hfind
    rw [check_symbols, hfind]
  · intro sec hfind hdata
    rw [check_symbols, hfind]
    rcases hd : sec.data with syms | r | u
    · exact absurd hd (hdata syms)
    · simp only [hd]
    · simp only [hd]
  · intro sec syms s hfind hdata
    rw [check_symbols, hfind]
    simp only [hdata]
    constructor
    · intro h
      rcases hrs : read_syms syms with e | s' <;> simp only [hrs] at h
      · exact Except.noConfusion h
      have hsz1 : ¬s'.HEAP_BASE.size ≠ 8 := by
        intro hc
        rw [if_pos hc] at h
        exact Except.noConfusion h
      rw [if_neg hsz1] at h
      have hsz2 : ¬s'.HEAP_SIZE.size ≠ 8 := by
        intro hc
        rw [if_pos hc] at h
        exact Except.noConfusion h
      rw [if_neg hsz2] at h
      have hsz3 : ¬s'.RELA.size ≠ 8 := by
        intro hc
        rw [if_pos hc] at h
        exact Except.noConfusion h
      rw [if_neg hsz3] at h
      have hsz4 : ¬s'.RELACOUNT.size ≠ 8 := by
        intro hc
        rw [if_pos hc] at h
        exact Except.noConfusion h
      rw [if_neg hsz4] at h
      have hsz5 : ¬s'.ENCLAVE_SIZE.size ≠ 8 := by
        intro hc
        rw [if_pos hc] at h
        exact Except.noConfusion h
      rw [if_neg hsz5] at h
      injection h with h'
      subst h'
      obtain ⟨ha, hb, h1, h2, h3, h4, h5, h6⟩ := (read_syms_ok_iff syms s').mp hrs
      push_neg at hsz1 hsz2 hsz3 hsz4 hsz5
      have p1 := List.find?_some h1
      have p2 := List.find?_some h2
      have p3 := List.find?_some h3
      have p4 := List.find?_some h4
      have p5 := List.find?_some h5
      have p6 := List.find?_some h6
      refine ⟨ha, hb,
        List.mem_of_find?_eq_some h1, of_decide_eq_true p1,
        List.mem_of_find?_eq_some h2, of_decide_eq_true p2,
        List.mem_of_find?_eq_some h3, of_decide_eq_true p3,
        List.mem_of_find?_eq_some h4, of_decide_eq_true p4,
        List.mem_of_find?_eq_some h5, of_decide_eq_true p5,
        List.mem_of_find?_eq_some h6, of_decide_eq_true p6,
        hsz1, hsz2, hsz3, hsz4, hsz5⟩
    · rintro ⟨ha, hb, m1, n1, m2, n2, m3, n3, m4, n4, m5, n5, m6, n6, z1, z2, z3, z4, z5⟩
      have hrs : read_syms syms = .ok s := by
        rw [read_syms_ok_iff]
        refine ⟨ha, hb, ?_, ?_, ?_, ?_, ?_, ?_⟩
        · exact find?_eq_unique _ _ _ (hb _ (by simp [sixNames])) m1 n1
        · exact find?_eq_unique _ _ _ (hb _ (by simp [sixNames])) m2 n2
        · exact find?_eq_unique _ _ _ (hb _ (by simp [sixNames])) m3 n3
        · exact find?_eq_unique _ _ _ (hb _ (by simp [sixNames])) m4 n4
        · exact find?_eq_unique _ _ _ (hb _ (by simp [sixNames])) m5 n5
        · exact find?_eq_unique _ _ _ (hb _ (by simp [sixNames])) m6 n6
      rw [hrs]
      simp only [z1, z2, z3, z4, z5]
      simp
  · intro sec syms n hfind hdata h
    rw [check_symbols, hfind] at h
    simp only [hdata] at h
    rcases hrs : read_syms syms with e | s' <;> simp only [hrs] at h
    · injection h with h'
      subst h'
      exact read_syms_err_undef syms n hrs
    · split at h
      · injection h with h'
        exact Error.noConfusion h'
      split at h
      · injection h with h'
        exact Error.noConfusion h'
      split at h
      · injection h with h'
        exact Error.noConfusion h'
      split at h
      · injection h with h'
        exact Error.noConfusion h'
      split at h
      · injection h with h'
        exact Error.noConfusion h'
      exact Except.noConfusion h
  · intro sec syms n hfind hdata h
    rw [check_symbols, hfind] at h
    simp only [hdata] at h
    rcases hrs : read_syms syms with e | s' <;> simp only [hrs] at h
    · injection h with h'
      subst h'
      exact read_syms_err_dup syms n hrs
    · split at h
      · injection h with h'
        exact Error.noConfusion h'
      split at h
      · injection h with h'
        exact Error.noConfusion h'
      split at h
      · injection h with h'
        exact Error.noConfusion h'
      split at h
      · injection h with h'
        exact Error.noConfusion h'
      split at h
      · injection h with h'
        exact Error.noConfusion h'
      exact Except.noConfusion h
  · intro sec syms l hfind hdata h
    rw [check_symbols, hfind] at h
    simp only [hdata] at h
    rcases hrs : read_syms syms with e | s' <;> simp only [hrs] at h
    · injection h with h'
      subst h'
      obtain ⟨hne, _, hiff⟩ := read_syms_err_missing syms l hrs
      exact ⟨hne, hiff⟩
    · split at h
      · injection h with h'
        exact Error.noConfusion h'
      split at h
      · injection h with h'
        exact Error.noConfusion h'
      split at h
      · injection h with h'
        exact Error.noConfusion h'
      split at h
      · injection h with h'
        exact Error.noConfusion h'
      split at h
      · injection h with h'
        exact Error.noConfusion h'
      exact Except.noConfusion h
  · intro sec syms n exp act hfind hdata h
    rw [check_symbols, hfind] at h
    simp only [hdata] at h
    rcases hrs : read_syms syms with e | s' <;> simp only [hrs] at h
    · injection h with h'
      rcases readSymsLoopKindsOfReadSyms : e with e0
      · subst h'
        rw [read_syms] at hrs
        rcases hloop : readSymsLoop (syms.drop 1) {} with e1 | st' <;>
          simp only [hloop] at hrs
        · injection hrs with h''
          subst h''
          rcases readSymsLoop_err_kinds _ _ _ hloop with ⟨m, hm⟩ | ⟨m, hm⟩ <;>
            exact Error.noConfusion hm
        · split at hrs
          · exact Except.noConfusion hrs
          · injection hrs with h''
            exact Error.noConfusion h''
    · obtain ⟨ha, hb, h1, h2, h3, h4, h5, h6⟩ := (read_syms_ok_iff syms s').mp hrs
      have hfields : ∀ nm y, ((syms.drop 1).find? fun z => decide (z.name = nm)) = some y →
          y ∈ syms.drop 1 ∧ y.name = nm := by
        intro nm y hy
        have hp := List.find?_some hy
        exact ⟨List.mem_of_find?_eq_some hy, of_decide_eq_true hp⟩
      split at h
      · next hc =>
        injection h with h'
        injection h' with e1 e2 e3
        subst e1; subst e2; subst e3
        exact ⟨rfl, hc, by simp, s'.HEAP_BASE, (hfields _ _ h2).1, (hfields _ _ h2).2, rfl⟩
      split at h
      · next hc =>
        injection h with h'
        injection h' with e1 e2 e3
        subst e1; subst e2; subst e3
        exact ⟨rfl, hc, by simp, s'.HEAP_SIZE, (hfields _ _ h3).1, (hfields _ _ h3).2, rfl⟩
      split at h
      · next hc =>
        injection h with h'
        injection h' with e1 e2 e3
        subst e1; subst e2; subst e3
        exact ⟨rfl, hc, by simp, s'.RELA, (hfields _ _ h4).1, (hfields _ _ h4).2, rfl⟩
      split at h
      · next hc =>
        injection h with h'
        injection h' with e1 e2 e3
        subst e1; subst e2; subst e3
        exact ⟨rfl, hc, by simp, s'.RELACOUNT, (hfields _ _ h5).1, (hfields _ _ h5).2, rfl⟩
      split at h
      · next hc =>
        injection h with h'
        injection h' with e1 e2 e3
        subst e1; subst e2; subst e3
        exact ⟨rfl, hc, by simp, s'.ENCLAVE_SIZE, (hfields _ _ h6).1, (hfields _ _ h6).2, rfl⟩
      exact Except.noConfusion h

/-- Witness for C6: the empty ELF has no `.dynsym` section. -/
theorem check_symbols_claim_witness :
    check_symbols elfEmpty = .error .DynamicSymbolTableNotFound :=
  (check_symbols_claim elfEmpty).1 (by decide)

/-- C10: the duplicate check applies only to the six required names: a defined
entry with any other name is passed over unconditionally by the walk (however
often it repeats), and a DynamicSymbolDuplicate error can only name one of
the six required names. -/
theorem duplicate_only_required_claim :
    (∀ (y : DynSym) (rest : List DynSym) (st : SymState),
        y.shndx ≠ SHN_UNDEF → y.name ∉ sixNames →
        readSymsLoop (y :: rest) st = readSymsLoop rest st)
    ∧ (∀ (elf : ElfFile) (n : String),
        check_symbols elf = .error (.DynamicSymbolDuplicate n) → n ∈ sixNames) := by
  refine ⟨fun y rest st h1 h2 => readSymsLoop_skip y rest st h1 h2, ?_⟩
  intro elf n h
  rw [check_symbols] at h
  rcases hfind : elf.sections.find? (fun s => decide (s.name = ".dynsym")) with _ | sec <;>
    simp only [hfind] at h
  · injection h with h'
    exact Error.noConfusion h'
  rcases hdata : sec.data with syms | r | u <;> simp only [hdata] at h
  · rcases hrs : read_syms syms with e | s <;> simp only [hrs] at h
    · injection h with h'
      subst h'
      exact (read_syms_err_dup syms n hrs).1
    · split at h
      · injection h with h'
        exact Error.noConfusion h'
      split at h
      · injection h with h'
        exact Error.noConfusion h'
      split at h
      · injection h with h'
        exact Error.noConfusion h'
      split at h
      · injection h with h'
        exact Error.noConfusion h'
      split at h
      · injection h with h'
        exact Error.noConfusion h'
      exact Except.noConfusion h
  · injection h with h'
    exact Error.noConfusion h'
  · injection h with h'
    exact Error.noConfusion h'

/-- Witness for C10: a defined symbol named "foo" is passed over by the walk. -/
theorem duplicate_only_required_claim_witness :
    readSymsLoop [⟨"foo", 1, 0, 0⟩] {} = readSymsLoop [] {} :=
  duplicate_only_required_claim.1 ⟨"foo", 1, 0, 0⟩ [] {} (by decide) (by decide)

/- ===================== Claim C1: splice engine ===================== -/

theorem le64_length (v : Nat) : (le64 v).length = 8 := rfl

theorem insertSplice_perm (s : Splice) (l : List Splice) :
    (insertSplice s l).Perm (s :: l) := by
  induction l with
  | nil => exact List.Perm.refl _
  | cons t ts ih =>
    rw [insertSplice]
    by_cases h : s.addr < t.addr
    · rw [if_pos h]
    · rw [if_neg h]
      exact (ih.cons t).trans (List.Perm.swap s t ts)

theorem insertSplice_sorted (s : Splice) (l : List Splice)
    (h : List.Pairwise (fun a b => a.addr ≤ b.addr) l) :
    List.Pairwise (fun a b => a.addr ≤ b.addr) (insertSplice s l) := by
  induction l with
  | nil => simp [insertSplice]
  | cons t ts ih =>
    rw [insertSplice]
    rcases List.pairwise_cons.mp h with ⟨ht, hts⟩
    by_cases hlt : s.addr < t.addr
    · rw [if_pos hlt]
      refine List.pairwise_cons.mpr ⟨?_, h⟩
      intro u hu
      rcases List.mem_cons.mp hu with hu | hu
      · subst hu
        omega
      · exact le_trans (le_of_lt hlt) (ht u hu)
    · rw [if_neg hlt]
      refine List.pairwise_cons.mpr ⟨?_, ih hts⟩
      intro u hu
      have hmem := (insertSplice_perm s ts).mem_iff.mp hu
      rcases List.mem_cons.mp hmem with hu' | hu'
      · subst hu'
        omega
      · exact ht u hu'

theorem sortSplices_sorted_perm (l : List Splice) :
    List.Pairwise (fun a b => a.addr ≤ b.addr) (sortSplices l)
    ∧ (sortSplices l).Perm l := by
  induction l with
  | nil => exact ⟨List.Pairwise.nil, List.Perm.refl _⟩
  | cons s ss ih =>
    rw [sortSplices]
    exact ⟨insertSplice_sorted s _ ih.1, (insertSplice_perm s _).trans (ih.2.cons s)⟩

theorem writeBytesAt_drop (buf : List Nat) (off : Nat) (bytes : List Nat) (k : Nat)
    (h : off + bytes.length ≤ k) :
    (writeBytesAt buf off bytes).drop k = buf.drop k := by
  rw [writeBytesAt, List.drop_append_eq_append_drop, List.drop_append_eq_append_drop]
  have e1 : (buf.take off).drop k = [] :=
    List.drop_eq_nil_of_le (by simp only [List.length_take]; omega)
  have e2 : bytes.drop (k - (buf.take off).length) = [] :=
    List.drop_eq_nil_of_le (by simp only [List.length_take]; omega)
  rw [e1, e2, List.nil_append, List.nil_append, List.drop_drop]
  by_cases hle : off ≤ buf.length
  · congr 1
    simp only [List.length_append, List.length_take]
    omega
  · have e3 : buf.drop k = [] := List.drop_eq_nil_of_le (by omega)
    have e4 : buf.drop (off + bytes.length + (k - (buf.take off ++ bytes).length)) = [] :=
      List.drop_eq_nil_of_le (by simp only [List.length_append, List.length_take]; omega)
    rw [e3, e4]

theorem foldl_write_drop (ph : Phdr) (sps : List Splice) :
    ∀ (buf : List Nat) (k : Nat), (∀ s ∈ sps, s.addr - segBase ph + 8 ≤ k) →
    (sps.foldl (fun b s => writeBytesAt b (s.addr - segBase ph) (le64 s.val)) buf).drop k
      = buf.drop k := by
  induction sps with
  | nil =>
    intro buf k h
    rfl
  | cons s rest ih =>
    intro buf k h
    rw [List.foldl_cons]
    rw [ih _ k fun t ht => h t (by simp [ht])]
    exact writeBytesAt_drop _ _ _ k (by
      have := h s (by simp)
      rw [le64_length]
      omega)

theorem overlaySplices_drop (ph : Phdr) (sps : List Splice) (k : Nat)
    (h : ∀ s ∈ sps, s.addr - segBase ph + 8 ≤ k) :
    (overlaySplices sps ph).drop k = (segBuf ph).drop k :=
  foldl_write_drop ph sps (segBuf ph) k h

theorem segBuf_drop (ph : Phdr) (k : Nat) :
    (segBuf ph).drop k =
      if k < ph.vaddr - segBase ph then
        List.replicate (ph.vaddr - segBase ph - k) 0 ++ segFileData ph
      else (segFileData ph).drop (k - (ph.vaddr - segBase ph)) := by
  rw [segBuf, List.drop_append_eq_append_drop, List.drop_replicate, List.length_replicate]
  by_cases h : k < ph.vaddr - segBase ph
  · rw [if_pos h, Nat.sub_eq_zero_of_le (le_of_lt h), List.drop_zero]
  · rw [if_neg h, Nat.sub_eq_zero_of_le (by omega), List.replicate_zero, List.nil_append]

theorem overlaySplices_append_one (ph : Phdr) (prev : List Splice) (s : Splice) :
    overlaySplices (prev ++ [s]) ph
      = writeBytesAt (overlaySplices prev ph) (s.addr - segBase ph) (le64 s.val) := by
  rw [overlaySplices, overlaySplices, List.foldl_append, List.foldl_cons, List.foldl_nil]

theorem spliceLoop_overlay (ph : Phdr) (sps : List Splice) :
    ∀ prev : List Splice,
    List.Pairwise (fun a b => a.addr ≤ b.addr) (prev ++ sps) →
    (∀ s ∈ prev ++ sps, segBase ph < s.addr) →
    (∀ s ∈ prev, s.addr + 8 ≤ ph.vaddr + (segFileData ph).length) →
    (∀ s ∈ sps, s.addr + 8 < segEnd ph → s.addr + 8 ≤ ph.vaddr + (segFileData ph).length) →
    spliceLoop (overlaySplices prev ph) (segBase ph) ph.vaddr (segEnd ph) (segFileData ph) sps
      = (overlaySplices (prev ++ sps.filter fun s => decide (s.addr + 8 < segEnd ph)) ph,
         sps.filter fun s => !decide (s.addr + 8 < segEnd ph)) := by
  induction sps with
  | nil =>
    intro prev hsort hgt hprev hdata
    simp [spliceLoop]
  | cons s rest ih =>
    intro prev hsort hgt hprev hdata
    have hbase_lt : segBase ph < s.addr := hgt s (by simp)
    have hbls : segBase ph ≤ ph.vaddr := by
      rw [segBase]
      omega
    by_cases hw : s.addr + 8 < segEnd ph
    · rw [spliceLoop, if_pos ⟨le_of_lt hbase_lt, hw⟩]
      have hfile : s.addr + 8 ≤ ph.vaddr + (segFileData ph).length := hdata s (by simp) hw
      have hprevle : ∀ t ∈ prev, t.addr ≤ s.addr := fun t ht =>
        (List.pairwise_append.mp hsort).2.2 t ht s (by simp)
      have hdropeq : (overlaySplices prev ph).drop (s.addr - segBase ph + 8)
          = (segBuf ph).drop (s.addr - segBase ph + 8) := by
        apply overlaySplices_drop
        intro t ht
        have h1 := hprevle t ht
        have h2 := hgt t (List.mem_append.mpr (Or.inl ht))
        omega
      have hnd : (if s.addr + 8 < ph.vaddr then
            (overlaySplices prev ph).take (s.addr - segBase ph) ++ le64 s.val ++
              List.replicate (ph.vaddr - (s.addr + 8)) 0 ++ segFileData ph
          else
            (overlaySplices prev ph).take (s.addr - segBase ph) ++ le64 s.val ++
              (segFileData ph).drop (s.addr + 8 - ph.vaddr))
          = overlaySplices (prev ++ [s]) ph := by
        rw [overlaySplices_append_one, writeBytesAt, le64_length]
        rw [hdropeq, segBuf_drop]
        by_cases hc : s.addr + 8 < ph.vaddr
        · rw [if_pos hc, if_pos (by omega)]
          rw [show ph.vaddr - segBase ph - (s.addr - segBase ph + 8)
            = ph.vaddr - (s.addr + 8) by omega]
          rw [List.append_assoc]
        · rw [if_neg hc, if_neg (by omega)]
          rw [show s.addr - segBase ph + 8 - (ph.vaddr - segBase ph)
            = s.addr + 8 - ph.vaddr by omega]
      dsimp only
      rw [hnd]
      have hre : prev ++ s :: rest = (prev ++ [s]) ++ rest := by
        rw [List.append_cons]
      rw [hre] at hsort hgt
      have := ih (prev ++ [s]) hsort hgt
        (by
          intro t ht
          rcases List.mem_append.mp ht with ht | ht
          · exact hprev t ht
          · rw [List.mem_singleton] at ht
            subst ht
            exact hfile)
        (fun t ht => hdata t (by simp [ht]))
      rw [this]
      have hwb : (decide (s.addr + 8 < segEnd ph)) = true := decide_eq_true hw
      simp [List.filter_cons, hwb, ← List.append_cons]
    · rw [spliceLoop]
      rw [if_neg fun hc => hw hc.2]
      have hrest : ∀ t ∈ rest, ¬(t.addr + 8 < segEnd ph) := by
        intro t ht hc
        have hcons : List.Pairwise (fun a b => a.addr ≤ b.addr) (s :: rest) :=
          (List.pairwise_append.mp hsort).2.1
        have hst : s.addr ≤ t.addr := (List.pairwise_cons.mp hcons).1 t ht
        exact hw (by omega)
      have hf1 : ((s :: rest).filter fun t => decide (t.addr + 8 < segEnd ph)) = [] := by
        rw [List.filter_eq_nil]
        intro t ht
        rcases List.mem_cons.mp ht with ht | ht
        · subst ht
          simpa using hw
        · simpa using hrest t ht
      have hf2 : ((s :: rest).filter fun t => !decide (t.addr + 8 < segEnd ph)) = s :: rest := by
        rw [List.filter_eq_self]
        intro t ht
        rcases List.mem_cons.mp ht with ht | ht
        · subst ht
          simpa using hw
        · simpa using hrest t ht
      rw [hf1, hf2, List.append_nil]

/-- C1 (amended): for a loadable segment with virtual range [start, end) and
page base base = start & ~0xFFF, provided every queued splice has address
strictly above base and every applied splice lies within the file-backed
bytes, the stream `write_elf_segments` hands to the writer equals the
segment's bytes placed at start (zero fill for [base, start)) with, for every
splice whose address A satisfies base < A and A + 8 < end — the source tests
`s.0 + 8 < end` strictly, so a splice at exactly end − 8 is NOT applied — the
8 bytes at A replaced by the little-endian encoding of that splice's value;
splices with A + 8 ≥ end are not consumed by that segment.  The five splices
(HEAP_BASE, HEAP_SIZE, RELA, RELACOUNT, ENCLAVE_SIZE) are sorted into
ascending address order before emission (second conjunct). -/
theorem splice_engine_claim (ph : Phdr) (sps : List Splice)
    (hsort : List.Pairwise (fun a b => a.addr ≤ b.addr) sps)
    (hgt : ∀ s ∈ sps, segBase ph < s.addr)
    (hfile : ∀ s ∈ sps, s.addr + 8 < segEnd ph →
      s.addr + 8 ≤ ph.vaddr + (segFileData ph).length) :
    processSegment sps ph
      = (overlaySplices (sps.filter fun s => decide (s.addr + 8 < segEnd ph)) ph,
         sps.filter fun s => !decide (s.addr + 8 < segEnd ph))
    ∧ ∀ l : List Splice,
        List.Pairwise (fun a b => a.addr ≤ b.addr) (sortSplices l)
        ∧ (sortSplices l).Perm l := by
  refine ⟨?_, fun l => sortSplices_sorted_perm l⟩
  have hloop := spliceLoop_overlay ph sps [] (by simpa using hsort) (by simpa using hgt)
    (by simp) (by simpa using hfile)
  simp only [List.nil_append] at hloop
  rw [processSegment.eq_def]
  dsimp only
  rcases sps with _ | ⟨s, rest⟩ <;> dsimp only
  · by_cases hb : segBase ph = ph.vaddr
    · rw [if_pos hb]
      have hcast : segFileData ph = overlaySplices [] ph := by
        rw [overlaySplices, List.foldl_nil, segBuf, hb]
        simp
      rw [hcast]
      simpa using hloop
    · rw [if_neg hb]
      have hcast : List.replicate (ph.vaddr - segBase ph) 0 ++ segFileData ph
          = overlaySplices [] ph := by
        rw [overlaySplices, List.foldl_nil, segBuf]
      rw [hcast]
      simpa using hloop
  · have hne : ¬(segBase ph = s.addr) := by
      have := hgt s (by simp)
      omega
    rw [if_neg hne]
    by_cases hb : segBase ph = ph.vaddr
    · rw [if_pos hb]
      have hcast : segFileData ph = overlaySplices [] ph := by
        rw [overlaySplices, List.foldl_nil, segBuf, hb]
        simp
      nth_rewrite 1 [hcast]
      exact hloop
    · rw [if_neg hb]
      have hcast : List.replicate (ph.vaddr - segBase ph) 0 ++ segFileData ph
          = overlaySplices [] ph := by
        rw [overlaySplices, List.foldl_nil, segBuf]
      rw [hcast]
      exact hloop

/-- Witness for C1 (amended), at a concrete unaligned segment (0x30 file bytes
at 0x1010) with one splice inside the window (0x1020) and one whose 8 bytes
end exactly at the segment end (0x1038, not applied, not consumed). -/
theorem splice_engine_claim_witness :
    processSegment [⟨0x1020, 0xdeadbeef⟩, ⟨0x1038, 7⟩] witnessPh
      = (overlaySplices
          (([⟨0x1020, 0xdeadbeef⟩, ⟨0x1038, 7⟩] : List Splice).filter fun s =>
            decide (s.addr + 8 < segEnd witnessPh)) witnessPh,
         ([⟨0x1020, 0xdeadbeef⟩, ⟨0x1038, 7⟩] : List Splice).filter fun s =>
            !decide (s.addr + 8 < segEnd witnessPh)) :=
  (splice_engine_claim witnessPh [⟨0x1020, 0xdeadbeef⟩, ⟨0x1038, 7⟩]
    (by decide) (by decide) (by decide)).1

/-- C1 counterexample: the original claim is false at two explicit inputs.
First, for the aligned 16-byte segment at 0x1000, the splice at
0x1008 = end − 8 lies in the claimed window [base, end − 8] but the produced
stream is the unmodified segment bytes and the splice is not consumed
(`s.0 + 8 < end` is strict in the source).  Second, for the aligned 16-byte
segment at 0x2000, a splice at exactly the page base is consumed by the
initial branch and the produced stream is only its 8 value bytes — the
segment bytes after the splice are dropped, instead of the claimed overlay. -/
theorem splice_engine_claim_cex :
    (processSegment [⟨0x1008, 0⟩] cexPhEnd
        = (List.replicate 16 0xAA, [⟨0x1008, 0⟩])
      ∧ 0x1000 ≤ 0x1008 ∧ (0x1008 : Nat) ≤ segEnd cexPhEnd - 8
      ∧ ((List.replicate 16 0xAA).drop 8).take 8 ≠ le64 0)
    ∧ (processSegment [⟨0x2000, 0x1122334455667788⟩] cexPhBase
        = (le64 0x1122334455667788, [])
      ∧ le64 0x1122334455667788
          ≠ le64 0x1122334455667788 ++ (List.replicate 16 0xBB).drop 8) := by
  exact ⟨⟨by decide, by decide, by decide, by decide⟩, ⟨by decide, by decide⟩⟩

/- ===================== Claim C2 ===================== -/

theorem segsLoop_eq_emissionSegs (phs : List Phdr) :
    ∀ sps : List Splice, segsLoop sps phs = emissionSegs sps phs := by
  induction phs with
  | nil =>
    intro sps
    rfl
  | cons ph rest ih =>
    intro sps
    rw [segsLoop, emissionSegs]
    by_cases h : ph.ptype = PhType.load
    · rw [if_pos h, if_pos h]
      dsimp only
      rw [ih, size_align_eq_ceil4k]
      rfl
    · rw [if_neg h, if_neg h, ih]

/-- C2: on success, `LayoutInfo::write` emits exactly the ordered sequence of
claim C2: the ECREATE record with the computed enclave size and the
configured ssa_frame_size; each loadable segment in ELF file order as
ceil4k(virtual_addr + mem_size − base)/0x1000 pages at base = virtual_addr &
~0xFFF with REG SECINFO whose R/W/X flags mirror the ELF segment flags and
page bytes from the splice engine; heap_size/0x1000 zero R|W REG pages at
heap_addr; stack_size/0x1000 zero R|W REG pages at stack_addr; one R|W REG
page at tls_addr whose stream is the little-endian encoding of
[stack_tos, 0]; one TCS page at tcs_addr with ossa = tcs_addr + 0x1000,
nssa = 2 if debug else 1, oentry = sgx_entry's value, ofsbasgx = tls_addr,
ogsbasgx = stack_tos, fslimit = gslimit = 0xFFF and all other fields zero;
and 2·ssa_frame_size zero R|W REG pages at the writer's running cursor. -/
theorem write_emission_claim (li : LayoutInfo) (rs : List Record)
    (h : li.write = .ok rs) :
    ∃ L, computeLayout li = .ok L ∧ rs = emissionSpec li L := by
  rw [LayoutInfo.write] at h
  rcases hL : computeLayout li with e | L <;> simp only [hL] at h
  · exact Except.noConfusion h
  injection h with h'
  refine ⟨L, rfl, ?_⟩
  rw [← h', emissionSpec, LayoutInfo.write_elf_segments]
  rw [segsLoop_eq_emissionSegs]
  rfl

set_option maxRecDepth 8192 in
/-- Witness for C2, at the sample ELF layout info. -/
theorem write_emission_claim_witness :
    ∃ L, computeLayout sampleLi = .ok L ∧ sampleRecords = emissionSpec sampleLi L :=
  write_emission_claim sampleLi sampleRecords (by decide)
